import Mathlib

/-!
Verification development for the DDL_PARSER repository: a column-level
lineage engine for SQL view definitions.

The repository contains three parallel implementations:
  * `ddl_lineage_engine.py`  (class `LineageParser`)      — namespace `Engine`
  * `view_ddl_parser.py`     (module-level functions)      — namespace `Vdl`
  * `parse_view_ddl.py`      (class `DDLMetadataParser`)   — namespace `Pvd`

All three sit on top of the external sqlglot AST.  We embed the AST
fragment the code actually consumes:

  * `Sexpr`    — scalar expressions (sqlglot `Column`, `Alias`, typed
    functions/operators, `Literal`, `Identifier`).  Scalar subqueries
    inside expressions are not modeled (no claim concerns them), so
    relations occur only in FROM/JOIN lists and WITH clauses.
  * `Select` / `FromItem` / `Subq` — query blocks.  A `Select` carries its
    own WITH clause (sqlglot attaches the `With` node to the `Select`),
    its projection list, its FROM/JOIN relation list (the code never
    distinguishes the join kind during resolution; the `joins` metadata
    listing, which no claim concerns, is omitted), and its WHERE
    expression (only ever rendered, never resolved).

sqlglot's `find_all` walks the whole subtree in DFS order, recursing into
nested subquery and CTE bodies; the walk functions below do the same.
Within a `Select` we fix the arg order WITH, projections, FROM/JOIN,
WHERE; no claim below depends on the relative order of these groups.

Python dicts are insertion-ordered with in-place update on key collision;
`dictInsert`/`dictGet` reproduce that.  The mutually recursive resolution
in the sources is partial (it can recurse unboundedly), so the embedded
functions take a fuel argument and return `none` when fuel runs out —
`none` models a Python `RecursionError`/exception escaping the call.
-/

inductive Sexpr where
  | col (table : String) (name : String)
  | aliasE (e : Sexpr) (name : String)
  | func (name : String) (args : List Sexpr)
  | lit (v : String)
  | identE (name : String)

mutual
inductive Select where
  | mk (withs : List (String × Select)) (projs : List Sexpr)
      (fromItems : List FromItem) (whereE : Option Sexpr)

inductive FromItem where
  | table (name : String) (aliasName : String)
  | subq (q : Subq)

inductive Subq where
  | mk (body : Select) (aliasName : String)
end

def Select.withs : Select → List (String × Select)
  | .mk w _ _ _ => w

def Select.projs : Select → List Sexpr
  | .mk _ p _ _ => p

def Select.fromItems : Select → List FromItem
  | .mk _ _ f _ => f

def Select.whereE : Select → Option Sexpr
  | .mk _ _ _ w => w

def Subq.body : Subq → Select
  | .mk b _ => b

def Subq.aliasName : Subq → String
  | .mk _ a => a

/-- Python-dict get: first (unique) binding of the key, if any. -/
def dictGet {α : Type} : List (String × α) → String → Option α
  | [], _ => none
  | (k, v) :: rest, key => if k = key then some v else dictGet rest key

/-- Python-dict assignment: update in place if the key exists, else append. -/
def dictInsert {α : Type} : List (String × α) → String → α → List (String × α)
  | [], k, v => [(k, v)]
  | (k', v') :: rest, k, v =>
      if k' = k then (k, v) :: rest else (k', v') :: dictInsert rest k v

/-- `table.alias_or_name` in sqlglot: the alias if present, else the table's
own name. -/
def aliasOrName (name al : String) : String :=
  if al = "" then name else al

/-- Worker for `dedupFirst`: keep elements not yet seen, in order. -/
def dedupFirstAux (seen : List String) : List String → List String
  | [] => []
  | x :: xs => if x ∈ seen then dedupFirstAux seen xs else x :: dedupFirstAux (x :: seen) xs

/-- `list(dict.fromkeys(xs))`: deduplicate keeping the first occurrence of
each element, preserving order. -/
def dedupFirst (l : List String) : List String := dedupFirstAux [] l

mutual
/-- All `exp.Table` nodes structurally under a SELECT, in DFS order, as
(name, alias) pairs — `find_all(exp.Table)` recurses into CTE and
subquery bodies. -/
def tablesInSelect : Select → List (String × String)
  | .mk withs _ fromItems _ => tablesInWiths withs ++ tablesInFroms fromItems

def tablesInWiths : List (String × Select) → List (String × String)
  | [] => []
  | (_, body) :: rest => tablesInSelect body ++ tablesInWiths rest

def tablesInFroms : List FromItem → List (String × String)
  | [] => []
  | .table n a :: rest => (n, a) :: tablesInFroms rest
  | .subq (.mk b _) :: rest => tablesInSelect b ++ tablesInFroms rest
end

mutual
/-- All `exp.Subquery` nodes structurally under a SELECT, in DFS order
(a subquery node before the nodes inside its body). -/
def subqsInSelect : Select → List Subq
  | .mk withs _ fromItems _ => subqsInWiths withs ++ subqsInFroms fromItems

def subqsInWiths : List (String × Select) → List Subq
  | [] => []
  | (_, body) :: rest => subqsInSelect body ++ subqsInWiths rest

def subqsInFroms : List FromItem → List Subq
  | [] => []
  | .table _ _ :: rest => subqsInFroms rest
  | .subq (.mk b a) :: rest => .mk b a :: subqsInSelect b ++ subqsInFroms rest
end

mutual
/-- All CTE definitions (name, body) under a node, DFS: each CTE before
the CTEs nested inside its body — `find_all(exp.CTE)`. -/
def ctesInSelect : Select → List (String × Select)
  | .mk withs _ fromItems _ => ctesInWiths withs ++ ctesInFroms fromItems

def ctesInWiths : List (String × Select) → List (String × Select)
  | [] => []
  | (n, body) :: rest => (n, body) :: ctesInSelect body ++ ctesInWiths rest

def ctesInFroms : List FromItem → List (String × Select)
  | [] => []
  | .table _ _ :: rest => ctesInFroms rest
  | .subq (.mk b _) :: rest => ctesInSelect b ++ ctesInFroms rest
end

mutual
/-- `ast.find(exp.With)`: the first WITH clause in DFS order, if any. -/
def findWith : Select → Option (List (String × Select))
  | .mk withs _ fromItems _ =>
      if withs.isEmpty then findWithFroms fromItems else some withs

def findWithFroms : List FromItem → Option (List (String × Select))
  | [] => none
  | .table _ _ :: rest => findWithFroms rest
  | .subq (.mk b _) :: rest =>
      match findWith b with
      | some w => some w
      | none => findWithFroms rest
end

mutual
/-- sqlglot rendering of the expression back to SQL text (`expr.sql()`),
for the fragment modeled here. -/
def Sexpr.sql : Sexpr → String
  | .col t n => if t = "" then n else t ++ "." ++ n
  | .aliasE e a => e.sql ++ " AS " ++ a
  | .func f args => f ++ "(" ++ sqlList args ++ ")"
  | .lit v => v
  | .identE n => n

def sqlList : List Sexpr → String
  | [] => ""
  | [x] => x.sql
  | x :: xs => x.sql ++ ", " ++ sqlList xs
end

/-- The immediate syntactic parent of a node, abstracted to the kind
checked by `is_noncolumn_identifier` (`exp.Func` / `exp.Interval` /
`exp.Extract` / anything else / the traversal root). -/
inductive ParentK where
  | funcK
  | intervalK
  | extractK
  | aliasK
  | rootK
deriving DecidableEq

mutual
/-- `expr.find_all(exp.Column)` paired with each found node's immediate
parent kind, DFS order.  `Column` nodes contain no nested columns; the
alias identifier of an `Alias` node is not a `Column`. -/
def colsWP : Sexpr → ParentK → List ((String × String) × ParentK)
  | .col t n, pk => [((t, n), pk)]
  | .aliasE e _, _ => colsWP e .aliasK
  | .func _ args, _ => colsWPList args
  | .lit _, _ => []
  | .identE _, _ => []

def colsWPList : List Sexpr → List ((String × String) × ParentK)
  | [] => []
  | x :: xs => colsWP x .funcK ++ colsWPList xs
end

/-- The column nodes of an expression without parent information
(`expr.find_all(exp.Column)` as used by `extract_dependencies`). -/
def allColumns (e : Sexpr) : List (String × String) :=
  (colsWP e .rootK).map (fun p => p.1)

/-- The children `exp.Expression` values of a node's `args`
(`expr.args.values()` keeping only expression-valued entries, flattening
list-valued args).  An `Alias` node's args are its inner expression and
its alias `Identifier`; a `Column`'s children are never consulted because
the resolver branches on `Column` first. -/
def Sexpr.children : Sexpr → List Sexpr
  | .col _ _ => []
  | .aliasE e a => [e, .identE a]
  | .func _ args => args
  | .lit _ => []
  | .identE _ => []

namespace Engine

/-- A value of the engine's alias map: a physical table name (Python
`str`) or an `exp.Subquery` node. -/
inductive Target where
  | tbl (name : String)
  | sub (q : Subq)

abbrev AliasMap := List (String × Target)

abbrev CteMap := List (String × Select)

/-- `LineageParser.build_cte_map`: locate the first WITH clause
(`ast.find(exp.With)`), then record name → SELECT body for every CTE
under it (`find_all(exp.CTE)`), unwrapping subquery wrappers — in the
model CTE bodies are stored unwrapped. -/
def build_cte_map (ast : Select) : CteMap :=
  match findWith ast with
  | none => []
  | some ws => (ctesInWiths ws).foldl (fun m nb => dictInsert m nb.1 nb.2) []

/-- `LineageParser.build_alias_map`: copy the parent map, then bind
alias-or-name → table name for every `exp.Table` found anywhere under the
SELECT, then alias → subquery node for every aliased `exp.Subquery` found
anywhere under it.  The `cte_map` parameter is received but unused, as in
the source. -/
def build_alias_map (S : Select) (pam : AliasMap) (_cte : CteMap) : AliasMap :=
  let am1 := (tablesInSelect S).foldl
    (fun m na => dictInsert m (aliasOrName na.1 na.2) (.tbl na.1)) pam
  (subqsInSelect S).foldl
    (fun m q => if q.aliasName ≠ "" then dictInsert m q.aliasName (.sub q) else m) am1

/-- One entry of `extract_select`'s "columns" output. -/
structure ColMeta where
  column_name : String
  expression : String
  lineage : List String
deriving DecidableEq

/-- The parts of `extract_select`'s output dict that feed resolution or a
claim: "columns", "tables", "filters".  The "joins" listing and the
JSON-serialized alias map are mechanical and concern no claim. -/
structure SelectMeta where
  columns : List ColMeta
  tables : List (String × String)
  filters : List String
deriving DecidableEq

/-- `LineageParser.extract_tables`: (table_name, alias_or_name) for every
table found under the SELECT. -/
def extract_tables (S : Select) : List (String × String) :=
  (tablesInSelect S).map (fun na => (na.1, aliasOrName na.1 na.2))

/-- `LineageParser.extract_filters`: the rendered WHERE predicate. -/
def extract_filters (S : Select) : List String :=
  match S.whereE with
  | some w => [w.sql]
  | none => []

/-- The "table.column" strings contributed by the physical-table bindings
of an alias map, in map order (`for alias, target in alias_map.items():
if isinstance(target, str)`). -/
def physRefs (am : AliasMap) (name : String) : List String :=
  am.filterMap (fun kv =>
    match kv.2 with
    | .tbl t => some (t ++ "." ++ name)
    | .sub _ => none)

/-- `for c in sub_meta["columns"]: if c["column_name"] == col_name:
return c["lineage"]` — the first matching projection's lineage. -/
def firstMatch : List ColMeta → String → Option (List String)
  | [], _ => none
  | c :: cs, name => if c.column_name = name then some c.lineage else firstMatch cs name

/-- `for c in sub_meta["columns"]: if c["column_name"] == col_name:
results.extend(c["lineage"])` — every matching projection contributes. -/
def collectMatches (cols : List ColMeta) (name : String) : List String :=
  ((cols.filter (fun c => c.column_name = name)).map (fun c => c.lineage)).flatten

mutual
/-- `LineageParser.extract_select`: build this block's alias map, then
resolve every projection (columns are computed before the mechanical
table/filter listings, so an exception raised during resolution — `none`
— aborts the whole analysis, as in Python). -/
def extract_select : Nat → Select → AliasMap → CteMap → Option SelectMeta
  | 0, _, _, _ => none
  | n+1, S, pam, cte =>
      let am := build_alias_map S pam cte
      match extract_cols n S.projs am cte with
      | none => none
      | some cols => some ⟨cols, extract_tables S, extract_filters S⟩

/-- The `for proj in select_node.expressions` loop of `extract_select`. -/
def extract_cols : Nat → List Sexpr → AliasMap → CteMap → Option (List ColMeta)
  | 0, _, _, _ => none
  | _+1, [], _, _ => some []
  | n+1, p :: ps, am, cte =>
      match extract_column_metadata n p am cte with
      | none => none
      | some c =>
          match extract_cols n ps am cte with
          | none => none
          | some cs => some (c :: cs)

/-- `LineageParser.extract_column_metadata`: name = the alias for an
`exp.Alias` projection, else the rendered projection text; expression =
the rendered (unaliased) expression; lineage from the resolver. -/
def extract_column_metadata : Nat → Sexpr → AliasMap → CteMap → Option ColMeta
  | 0, _, _, _ => none
  | n+1, proj, am, cte =>
      match proj with
      | .aliasE e a =>
          match resolve_expression n e am cte with
          | none => none
          | some lin => some ⟨a, e.sql, lin⟩
      | p =>
          match resolve_expression n p am cte with
          | none => none
          | some lin => some ⟨p.sql, p.sql, lin⟩

/-- `LineageParser.resolve_expression`: a `Column` goes to
`resolve_column`; any other node takes the deduplicated concatenation of
its children's resolutions, left to right. -/
def resolve_expression : Nat → Sexpr → AliasMap → CteMap → Option (List String)
  | 0, _, _, _ => none
  | n+1, e, am, cte =>
      match e with
      | .col t c => resolve_column n t c am cte
      | e' =>
          match resolve_expr_list n e'.children am cte with
          | none => none
          | some ls => some (dedupFirst ls.flatten)

/-- The child loop of `resolve_expression`. -/
def resolve_expr_list : Nat → List Sexpr → AliasMap → CteMap → Option (List (List String))
  | 0, _, _, _ => none
  | _+1, [], _, _ => some []
  | n+1, x :: xs, am, cte =>
      match resolve_expression n x am cte with
      | none => none
      | some l =>
          match resolve_expr_list n xs am cte with
          | none => none
          | some ls => some (l :: ls)

/-- `LineageParser.resolve_column`.  Qualified (`col.table` truthy):
subquery binding first, then CTE-registry membership (checked even when
the alias map binds the qualifier to a physical table), then physical
table; an unbound qualifier FALLS THROUGH to the unqualified scan.
Unqualified: the case-2 scan. -/
def resolve_column : Nat → String → String → AliasMap → CteMap → Option (List String)
  | 0, _, _, _, _ => none
  | n+1, tq, name, am, cte =>
      if tq = "" then resolve_unqualified n name am cte
      else
        match dictGet am tq with
        | some (.sub q) => resolve_via_body n q.body tq name cte
        | other =>
            match dictGet cte tq with
            | some b => resolve_via_body n b tq name cte
            | none =>
                match other with
                | some (.tbl t) => some [t ++ "." ++ name]
                | _ => resolve_unqualified n name am cte

/-- The body shared verbatim by `resolve_column`'s subquery and CTE
branches: analyze the body with a fresh empty parent scope and the same
registry; return the first matching projection's lineage, else the
literal fallback "qualifier.column". -/
def resolve_via_body : Nat → Select → String → String → CteMap → Option (List String)
  | 0, _, _, _, _ => none
  | n+1, body, tq, name, cte =>
      match extract_select n body [] cte with
      | none => none
      | some meta =>
          match firstMatch meta.columns name with
          | some lin => some lin
          | none => some [tq ++ "." ++ name]

/-- Case 2 of `resolve_column`: one "table.column" per physical binding,
then the lineage of every matching output column of every registered CTE;
deduplicate; if empty, the bare column name. -/
def resolve_unqualified : Nat → String → AliasMap → CteMap → Option (List String)
  | 0, _, _, _ => none
  | n+1, name, am, cte =>
      match cte_lineage_scan n cte name cte with
      | none => none
      | some exts =>
          let d := dedupFirst (physRefs am name ++ exts)
          some (if d.isEmpty then [name] else d)

/-- The `for cte_name, cte_select in cte_map.items()` loop of case 2:
every registered CTE is re-analyzed (with the full registry), whether or
not it is referenced by the query. -/
def cte_lineage_scan : Nat → CteMap → String → CteMap → Option (List String)
  | 0, _, _, _ => none
  | _+1, [], _, _ => some []
  | n+1, (_, b) :: rest, name, cte =>
      match extract_select n b [] cte with
      | none => none
      | some meta =>
          match cte_lineage_scan n rest name cte with
          | none => none
          | some more => some (collectMatches meta.columns name ++ more)
end

/-- `NormalizationLineageEngine.process`, after the external parse and
cosmetic normalization: build the CTE registry from the whole tree, find
the first SELECT (the root, in this model, the CREATE wrapper being
external), analyze it with an empty parent scope. -/
def processSelect (fuel : Nat) (root : Select) : Option SelectMeta :=
  extract_select fuel root [] (build_cte_map root)

end Engine

namespace Vdl

/-- `is_noncolumn_identifier`: false unless the node is an
`exp.Identifier`; for an identifier, true exactly when its immediate
parent is a `Func`, `Interval` or `Extract` node. -/
def is_noncolumn_identifier (node : Sexpr) (parent : ParentK) : Bool :=
  match node with
  | .identE _ => parent = .funcK || parent = .intervalK || parent = .extractK
  | _ => false

/-- `build_alias_to_table_map`: alias-or-name → table name for every
table found anywhere under the SELECT. -/
def build_alias_to_table_map (S : Select) : List (String × String) :=
  (tablesInSelect S).foldl (fun m na => dictInsert m (aliasOrName na.1 na.2) na.1) []

/-- `extract_ctes`: CTE name → SELECT body for every CTE found anywhere
in the parsed statement. -/
def extract_ctes (root : Select) : List (String × Select) :=
  (ctesInSelect root).foldl (fun m nb => dictInsert m nb.1 nb.2) []

/-- `extract_subqueries`: alias → SELECT body for every aliased subquery
found anywhere under the SELECT. -/
def extract_subqueries (S : Select) : List (String × Select) :=
  (subqsInSelect S).foldl
    (fun m q => if q.aliasName ≠ "" then dictInsert m q.aliasName q.body else m) []

/-- `guess_table_for_unqualified`: "<unknown>" on an empty scope; both
source branches (single table, and first-in-FROM-order) return the first
value of the map. -/
def guess_table_for_unqualified (_colName : String) (a2t : List (String × String)) : String :=
  match a2t with
  | [] => "<unknown>"
  | (_, t) :: _ => t

/-- sqlglot `text("this")`: the raw string carried by an `Identifier` or
`Literal`, "" for other nodes. -/
def textStr : Sexpr → String
  | .identE s => s
  | .lit v => v
  | _ => ""

/-- sqlglot `Expression.name` (= `text("this")`): a column's name, an
identifier's or literal's text, and for other nodes the text of their
`this` argument when it is such a leaf, else "". -/
def pyName : Sexpr → String
  | .col _ c => c
  | .identE s => s
  | .lit v => v
  | .aliasE inner _ => textStr inner
  | .func _ args =>
      match args with
      | a :: _ => textStr a
      | [] => ""

/-- The projection search of `resolve_column_lineage`'s CTE/subquery
branches: first projection that is an `Alias` with that alias (take its
inner expression), else whose `name` matches (take the projection). -/
def match_projection : List Sexpr → String → Option Sexpr
  | [], _ => none
  | p :: ps, name =>
      match p with
      | .aliasE inner a =>
          if a = name then some inner
          else if pyName (.aliasE inner a) = name then some (.aliasE inner a)
          else match_projection ps name
      | p' =>
          if pyName p' = name then some p'
          else match_projection ps name

/-- Python-set insertion (the list order models nothing: the source
builds an unordered `set`). -/
def setInsert (x : String × String) (l : List (String × String)) : List (String × String) :=
  if x ∈ l then l else l ++ [x]

/-- Python-set union `|=`. -/
def setUnion (a b : List (String × String)) : List (String × String) :=
  b.foldl (fun acc x => setInsert x acc) a

mutual
/-- `resolve_column_lineage`: iterate over every `Column` found in the
expression, resolve each against the scope, union the results. -/
def resolve_column_lineage : Nat → Sexpr → List (String × String) →
    List (String × Select) → List (String × Select) → Option (List (String × String))
  | 0, _, _, _, _ => none
  | n+1, expr, a2t, ctes, subqs => rcl_loop n (colsWP expr .rootK) [] a2t ctes subqs

/-- The `for col in expr.find_all(exp.Column)` loop, with the running
result set as accumulator. -/
def rcl_loop : Nat → List ((String × String) × ParentK) → List (String × String) →
    List (String × String) → List (String × Select) → List (String × Select) →
    Option (List (String × String))
  | 0, _, _, _, _, _ => none
  | _+1, [], acc, _, _, _ => some acc
  | n+1, ((t, name), pk) :: rest, acc, a2t, ctes, subqs =>
      if is_noncolumn_identifier (.col t name) pk then
        rcl_loop n rest acc a2t ctes subqs
      else
        let table_name := if t ≠ "" then (dictGet a2t t).getD t
                          else guess_table_for_unqualified name a2t
        match dictGet ctes table_name with
        | some cteSel =>
            match match_projection cteSel.projs name with
            | some m =>
                match resolve_column_lineage n m (build_alias_to_table_map cteSel)
                    ctes (extract_subqueries cteSel) with
                | none => none
                | some part => rcl_loop n rest (setUnion acc part) a2t ctes subqs
            | none => rcl_loop n rest (setInsert (table_name, name) acc) a2t ctes subqs
        | none =>
            match dictGet subqs table_name with
            | some subSel =>
                match match_projection subSel.projs name with
                | some m =>
                    match resolve_column_lineage n m (build_alias_to_table_map subSel)
                        ctes (extract_subqueries subSel) with
                    | none => none
                    | some part => rcl_loop n rest (setUnion acc part) a2t ctes subqs
                | none => rcl_loop n rest (setInsert (table_name, name) acc) a2t ctes subqs
            | none => rcl_loop n rest (setInsert (table_name, name) acc) a2t ctes subqs
end

/-- One projection of `extract_full_lineage_grouped_with_view`: unwrap an
`Alias` projection to its source expression and resolve it against the
top-level scope, CTE registry and subquery map of the root SELECT. -/
def resolve_projection (fuel : Nat) (root : Select) (proj : Sexpr) :
    Option (List (String × String)) :=
  let src := match proj with
             | .aliasE e _ => e
             | p => p
  resolve_column_lineage fuel src (build_alias_to_table_map root)
    (extract_ctes root) (extract_subqueries root)

end Vdl

namespace Pvd

/-- A value of `DDLMetadataParser`'s alias map: a table name string or an
`exp.Subquery` node. -/
inductive PTarget where
  | tbl (name : String)
  | sub (q : Subq)

/-- `DDLMetadataParser.build_alias_map`'s result: the alias bindings plus
the `"__physical_tables__"` list (a list-valued magic key in the source,
modeled as a separate field). -/
structure AliasMap where
  aliases : List (String × PTarget)
  physical_tables : List String

/-- `DDLMetadataParser.build_alias_map`: every table found anywhere under
the SELECT is bound and appended (with duplicates) to the physical-tables
list; every subquery is bound under its alias-or-name (even when that is
empty). -/
def build_alias_map (S : Select) : AliasMap :=
  let ts := tablesInSelect S
  let am := ts.foldl (fun m na => dictInsert m (aliasOrName na.1 na.2) (PTarget.tbl na.1)) []
  let am2 := (subqsInSelect S).foldl (fun m q => dictInsert m q.aliasName (PTarget.sub q)) am
  ⟨am2, ts.map (fun na => na.1)⟩

/-- `DDLMetadataParser.resolve_unknown_alias`: with exactly one entry in
the physical-tables list, attribute the column to it; otherwise keep the
dangling qualifier literally. -/
def resolve_unknown_alias (table_alias : String) (am : AliasMap) (col_name : String) :
    List String :=
  match am.physical_tables with
  | [t] => [t ++ "." ++ col_name]
  | _ => [table_alias ++ "." ++ col_name]

/-- `expr.this` restricted to expression-valued results; `none` models
the raw-string/`None` cases (`Literal.this`, `Identifier.this`, an
argument-less function) whose subsequent use (`expr.sql()`,
`expr.find_all`) raises in Python. -/
def thisOf : Sexpr → Option Sexpr
  | .col _ n => some (.identE n)
  | .aliasE e _ => some e
  | .func _ args => args.head?
  | .lit _ => none
  | .identE _ => none

/-- `proj.alias`: the alias of an `exp.Alias` node, `""` otherwise. -/
def aliasOf : Sexpr → String
  | .aliasE _ a => a
  | _ => ""

/-- `isinstance(expr, Column)`. -/
def isColumnE : Sexpr → Bool
  | .col _ _ => true
  | _ => false

/-- One column-metadata entry of `DDLMetadataParser.extract_select`. -/
structure ColMeta where
  column_name : String
  base_table : Option String
  formula : String
  lineage : List String
  dep_tables : List String
deriving DecidableEq

/-- Insertion into an ascending-sorted list (Python `sorted`). -/
def insertSorted (x : String) : List String → List String
  | [] => [x]
  | y :: ys => if x ≤ y then x :: y :: ys else y :: insertSorted x ys

/-- `sorted(...)` over a set of strings. -/
def sortStrings (l : List String) : List String :=
  l.foldr insertSorted []

/-- `rc.split(".")[0]` when `"." in rc`. -/
def tablePrefix (s : String) : Option String :=
  match s.splitOn "." with
  | p :: _ :: _ => some p
  | _ => none

/-- The first matching entry of a subquery's analyzed columns
(`for c in sub_meta["columns"]: if c["column_name"] == name`). -/
def firstMatchP : List ColMeta → String → Option (List String)
  | [], _ => none
  | c :: cs, name => if c.column_name = name then some c.lineage else firstMatchP cs name

mutual
/-- `DDLMetadataParser.resolve_column`: subquery binding → recurse and
propagate the matching column's lineage (literal fallback if no match);
table binding → qualified reference; unbound truthy qualifier → the
single-table heuristic; no qualifier → the bare name. -/
def resolve_column : Nat → String → String → AliasMap → Option (List String)
  | 0, _, _, _ => none
  | n+1, table_alias, name, am =>
      match dictGet am.aliases table_alias with
      | some (.sub q) =>
          match extract_select n q.body with
          | none => none
          | some cols =>
              match firstMatchP cols name with
              | some lin => some lin
              | none => some [table_alias ++ "." ++ name]
      | some (.tbl t) => some [t ++ "." ++ name]
      | none =>
          if table_alias ≠ "" then some (resolve_unknown_alias table_alias am name)
          else some [name]

/-- The `for col in expr.find_all(Column)` loop of
`extract_dependencies`, concatenating the resolved reference lists. -/
def dep_loop : Nat → List (String × String) → AliasMap → Option (List String)
  | 0, _, _ => none
  | _+1, [], _ => some []
  | n+1, (t, name) :: rest, am =>
      match resolve_column n t name am with
      | none => none
      | some rcs =>
          match dep_loop n rest am with
          | none => none
          | some more => some (rcs ++ more)

/-- `DDLMetadataParser.extract_dependencies`, "columns" part: the sorted
set of resolved references. -/
def extract_dependencies : Nat → Sexpr → AliasMap → Option (List String)
  | 0, _, _ => none
  | n+1, expr, am =>
      match dep_loop n (allColumns expr) am with
      | none => none
      | some cols => some (sortStrings (dedupFirst cols))

/-- `DDLMetadataParser.extract_select`: build this block's alias map and
assemble per-projection metadata. -/
def extract_select : Nat → Select → Option (List ColMeta)
  | 0, _ => none
  | n+1, S => proj_list n S.projs (build_alias_map S)

/-- The projection loop of `Pvd.extract_select`. -/
def proj_list : Nat → List Sexpr → AliasMap → Option (List ColMeta)
  | 0, _, _ => none
  | _+1, [], _ => some []
  | n+1, proj :: ps, am =>
      match proj_meta n proj am with
      | none => none
      | some c =>
          match proj_list n ps am with
          | none => none
          | some cs => some (c :: cs)

/-- One projection of `Pvd.extract_select`: `alias = proj.alias; expr =
proj.this`; the `isinstance(expr, Column)` branch uses `alias or
expr.name` and records a base table; the other branch uses `alias or
proj.sql()` with no base table. -/
def proj_meta : Nat → Sexpr → AliasMap → Option ColMeta
  | 0, _, _ => none
  | n+1, proj, am =>
      let al := aliasOf proj
      match thisOf proj with
      | none => none
      | some e =>
          match extract_dependencies n e am with
          | none => none
          | some lineage =>
              let dts := sortStrings (dedupFirst (lineage.filterMap tablePrefix))
              if isColumnE e then
                let bt := match lineage with
                          | l :: _ => some ((l.splitOn ".").headD l)
                          | [] => none
                some ⟨if al ≠ "" then al else Vdl.pyName e, bt, e.sql, lineage, dts⟩
              else
                some ⟨if al ≠ "" then al else proj.sql, none, e.sql, lineage, dts⟩
end

end Pvd

/-! ## Size measures

Structural sizes used to bound the fuel the engine's recursion needs
when the CTE registry is empty (claim C9).  The weights are generous so
that every recursive call strictly fits under the bound. -/

mutual
def szE : Sexpr → Nat
  | .col _ _ => 2
  | .aliasE e _ => 6 + szE e
  | .func _ args => 1 + szArgs args
  | .lit _ => 1
  | .identE _ => 1

def szArgs : List Sexpr → Nat
  | [] => 0
  | x :: xs => 2 + szE x + szArgs xs
end

mutual
def szSel : Select → Nat
  | .mk withs projs fromItems _ => 1 + szWiths withs + szProjs projs + szFroms fromItems

def szWiths : List (String × Select) → Nat
  | [] => 0
  | (_, b) :: rest => 1 + 2 * szSel b + szWiths rest

def szProjs : List Sexpr → Nat
  | [] => 0
  | p :: ps => 2 + szE p + szProjs ps

def szFroms : List FromItem → Nat
  | [] => 0
  | .table _ _ :: rest => 1 + szFroms rest
  | .subq (.mk b _) :: rest => 3 + 2 * szSel b + szFroms rest
end

/-- Size of an alias-map target: subquery bodies count, table names are
free. -/
def tgtSz : Engine.Target → Nat
  | .tbl _ => 0
  | .sub (.mk b _) => 1 + szSel b

/-- Total size of the subquery bodies stored in an alias map. -/
def amSz : Engine.AliasMap → Nat
  | [] => 0
  | (_, v) :: rest => tgtSz v + amSz rest

/-- Total size of a list of subquery nodes. -/
def subqsSz : List Subq → Nat
  | [] => 0
  | .mk b _ :: rest => 1 + szSel b + subqsSz rest

/-! ## Concrete inputs used by the claims -/

/-- CTE body of spec Example 2: `SELECT id AS cid FROM t`. -/
def ex2Body : Select := .mk [] [.aliasE (.col "" "id") "cid"] [.table "t" ""] none

/-- Spec Example 2: `WITH c AS (SELECT id AS cid FROM t) SELECT c.cid
FROM c`. -/
def ex2Top : Select := .mk [("c", ex2Body)] [.col "c" "cid"] [.table "c" ""] none

/-- CTE body `SELECT a FROM u` (an unqualified projection; references no
CTE, so the CTE graph of `c9Top` is trivially acyclic). -/
def c9Body : Select := .mk [] [.col "" "a"] [.table "u" ""] none

/-- `WITH w AS (SELECT a FROM u) SELECT w.a FROM w`. -/
def c9Top : Select := .mk [("w", c9Body)] [.col "w" "a"] [.table "w" ""] none

/-- Spec Example 3: `SELECT id FROM t1, t2`. -/
def c2Top : Select := .mk [] [.col "" "id"] [.table "t1" "", .table "t2" ""] none

/-- Shared derived-relation body `SELECT t.a AS x FROM t` (fully
qualified, so its analysis never consults the registry). -/
def c4Body : Select := .mk [] [.aliasE (.col "t" "a") "x"] [.table "t" ""] none

/-- `WITH c AS (SELECT t.a AS x FROM t) SELECT x FROM c`. -/
def c4CteTop : Select := .mk [("c", c4Body)] [.col "" "x"] [.table "c" ""] none

/-- `SELECT x FROM (SELECT t.a AS x FROM t) c` — `c4CteTop` with the CTE
inlined as an aliased subquery. -/
def c4SubTop : Select := .mk [] [.col "" "x"] [.subq (.mk c4Body "c")] none

/-- `WITH c AS (SELECT t.a AS x FROM t) SELECT c.x FROM c` (qualified
reference). -/
def c4CteTopQ : Select := .mk [("c", c4Body)] [.col "c" "x"] [.table "c" ""] none

/-- `SELECT c.x FROM (SELECT t.a AS x FROM t) c`. -/
def c4SubTopQ : Select := .mk [] [.col "c" "x"] [.subq (.mk c4Body "c")] none

/-- Subquery body `SELECT u.b AS x FROM u`, used to exhibit the
subquery-over-CTE precedence. -/
def c10Sub : Select := .mk [] [.aliasE (.col "u" "b") "x"] [.table "u" ""] none

/-- `DATEADD(day, 1, x)` as the default (mysql) sqlglot parse renders it:
an anonymous function whose bare-identifier arguments are `Column`
nodes. -/
def c6Expr : Sexpr := .func "DATEADD" [.col "" "day", .lit "1", .col "" "x"]

/-- Following the spec's words (§4.3), the aliases of a block's OWN
FROM/JOIN list only — what the claim says the scope is limited to.
Stated for comparison with `Engine.build_alias_map`, which uses the
recursive `find_all`. -/
def spec_own_from_aliases (S : Select) : List String :=
  S.fromItems.map (fun fi =>
    match fi with
    | .table n a => aliasOrName n a
    | .subq (.mk _ a) => a)

/-! ## General lemmas -/

lemma dedupFirstAux_sublist (l : List String) :
    ∀ seen : List String, (dedupFirstAux seen l).Sublist l := by
  induction l with
  | nil => intro seen; simp [dedupFirstAux]
  | cons x xs ih =>
      intro seen
      rw [dedupFirstAux]
      by_cases hx : x ∈ seen
      · rw [if_pos hx]; exact (ih seen).cons x
      · rw [if_neg hx]; exact (ih (x :: seen)).cons₂ x

lemma dedupFirst_sublist (l : List String) : (dedupFirst l).Sublist l :=
  dedupFirstAux_sublist l []

lemma dedupFirstAux_mem (l : List String) :
    ∀ (seen : List String) (x : String),
      x ∈ dedupFirstAux seen l ↔ x ∈ l ∧ x ∉ seen := by
  induction l with
  | nil => intro seen x; simp [dedupFirstAux]
  | cons y ys ih =>
      intro seen x
      rw [dedupFirstAux]
      by_cases hy : y ∈ seen
      · rw [if_pos hy, ih]
        simp only [List.mem_cons]
        constructor
        · rintro ⟨hm, hn⟩
          exact ⟨Or.inr hm, hn⟩
        · rintro ⟨hm | hm, hn⟩
          · subst hm; exact absurd hy hn
          · exact ⟨hm, hn⟩
      · rw [if_neg hy]
        simp only [List.mem_cons, ih]
        constructor
        · rintro (rfl | ⟨hm, hn⟩)
          · exact ⟨Or.inl rfl, hy⟩
          · push_neg at hn
            exact ⟨Or.inr hm, hn.2⟩
        · rintro ⟨hm | hm, hn⟩
          · exact Or.inl hm
          · by_cases hxy : x = y
            · exact Or.inl hxy
            · refine Or.inr ⟨hm, ?_⟩
              intro hc
              rcases hc with h | h
              · exact hxy h
              · exact hn h

lemma dedupFirst_mem (l : List String) (x : String) : x ∈ dedupFirst l ↔ x ∈ l := by
  rw [dedupFirst, dedupFirstAux_mem]
  simp

lemma dedupFirstAux_nodup (l : List String) :
    ∀ seen : List String, (dedupFirstAux seen l).Nodup := by
  induction l with
  | nil => intro seen; simp [dedupFirstAux]
  | cons x xs ih =>
      intro seen
      rw [dedupFirstAux]
      by_cases hx : x ∈ seen
      · rw [if_pos hx]; exact ih seen
      · rw [if_neg hx]
        refine List.nodup_cons.mpr ⟨?_, ih (x :: seen)⟩
        intro hmem
        have := ((dedupFirstAux_mem xs (x :: seen) x).mp hmem).2
        simp at this

lemma dedupFirst_nodup (l : List String) : (dedupFirst l).Nodup :=
  dedupFirstAux_nodup l []

lemma szSel_eq (S : Select) :
    szSel S = 1 + szWiths S.withs + szProjs S.projs + szFroms S.fromItems := by
  cases S; rfl

lemma szSel_pos (S : Select) : 1 ≤ szSel S := by
  cases S; simp [szSel]; omega

lemma szE_pos (e : Sexpr) : 1 ≤ szE e := by
  cases e <;> simp [szE] <;> omega

lemma szE_children_le (e : Sexpr) : 1 + szArgs e.children ≤ szE e := by
  cases e <;> simp [Sexpr.children, szE, szArgs] <;> omega

lemma szWF_le_szSel (b : Select) : szWiths b.withs + szFroms b.fromItems ≤ szSel b := by
  cases b; simp [szSel, Select.withs, Select.fromItems]; omega

lemma subqsSz_append : ∀ a b : List Subq, subqsSz (a ++ b) = subqsSz a + subqsSz b := by
  intro a b
  induction a with
  | nil => simp [subqsSz]
  | cons q rest ih => cases q; simp [subqsSz, ih]; omega

mutual
theorem subqsSz_inSelect : ∀ S : Select,
    subqsSz (subqsInSelect S) ≤ szWiths S.withs + szFroms S.fromItems
  | .mk ws ps fs w => by
      simp only [subqsInSelect, Select.withs, Select.fromItems]
      rw [subqsSz_append]
      exact Nat.add_le_add (subqsSz_inWiths ws) (subqsSz_inFroms fs)

theorem subqsSz_inWiths : ∀ ws : List (String × Select),
    subqsSz (subqsInWiths ws) ≤ szWiths ws
  | [] => le_refl _
  | (n, b) :: rest => by
      simp only [subqsInWiths, szWiths]
      rw [subqsSz_append]
      have h1 := subqsSz_inSelect b
      have h2 := subqsSz_inWiths rest
      have h3 := szWF_le_szSel b
      omega

theorem subqsSz_inFroms : ∀ fs : List FromItem,
    subqsSz (subqsInFroms fs) ≤ szFroms fs
  | [] => le_refl _
  | .table n a :: rest => by
      show subqsSz (subqsInFroms rest) ≤ 1 + szFroms rest
      have := subqsSz_inFroms rest
      omega
  | .subq (.mk b a) :: rest => by
      show 1 + szSel b + subqsSz (subqsInSelect b ++ subqsInFroms rest)
          ≤ 3 + 2 * szSel b + szFroms rest
      rw [subqsSz_append]
      have h1 := subqsSz_inSelect b
      have h2 := subqsSz_inFroms rest
      have h3 := szWF_le_szSel b
      omega
end

lemma dictGet_tgtSz : ∀ (am : Engine.AliasMap) (k : String) (v : Engine.Target),
    dictGet am k = some v → tgtSz v ≤ amSz am := by
  intro am k v
  induction am with
  | nil => intro h; simp [dictGet] at h
  | cons kv rest ih =>
      obtain ⟨k', v'⟩ := kv
      intro h
      rw [dictGet] at h
      by_cases hk : k' = k
      · rw [if_pos hk] at h
        injection h with hv
        subst hv
        simp only [amSz]
        omega
      · rw [if_neg hk] at h
        have := ih h
        simp only [amSz]
        omega

lemma amSz_dictInsert : ∀ (am : Engine.AliasMap) (k : String) (v : Engine.Target),
    amSz (dictInsert am k v) ≤ amSz am + tgtSz v := by
  intro am k v
  induction am with
  | nil => simp only [dictInsert, amSz]; omega
  | cons kv rest ih =>
      obtain ⟨k', v'⟩ := kv
      simp only [dictInsert]
      by_cases hk : k' = k
      · rw [if_pos hk]; simp only [amSz]; omega
      · rw [if_neg hk]; simp only [amSz]; have := ih; omega

lemma amSz_tables_fold : ∀ (ts : List (String × String)) (pam : Engine.AliasMap),
    amSz (ts.foldl (fun m na => dictInsert m (aliasOrName na.1 na.2) (.tbl na.1)) pam)
      ≤ amSz pam := by
  intro ts
  induction ts with
  | nil => intro pam; simp
  | cons t rest ih =>
      intro pam
      simp only [List.foldl_cons]
      refine (ih _).trans ?_
      have := amSz_dictInsert pam (aliasOrName t.1 t.2) (.tbl t.1)
      simp [tgtSz] at this
      omega

lemma amSz_subqs_fold : ∀ (qs : List Subq) (am : Engine.AliasMap),
    amSz (qs.foldl
      (fun m q => if q.aliasName ≠ "" then dictInsert m q.aliasName (.sub q) else m) am)
      ≤ amSz am + subqsSz qs := by
  intro qs
  induction qs with
  | nil => intro am; simp [subqsSz]
  | cons q rest ih =>
      intro am
      obtain ⟨b, a⟩ := q
      simp only [List.foldl_cons, subqsSz]
      refine (ih _).trans ?_
      by_cases ha : (Subq.mk b a).aliasName ≠ ""
      · rw [if_pos ha]
        have := amSz_dictInsert am (Subq.mk b a).aliasName (.sub (.mk b a))
        simp [tgtSz] at this
        omega
      · rw [if_neg ha]; omega

lemma amSz_build (S : Select) (pam : Engine.AliasMap) (cte : Engine.CteMap) :
    amSz (Engine.build_alias_map S pam cte) ≤ amSz pam + szWiths S.withs + szFroms S.fromItems := by
  unfold Engine.build_alias_map
  refine (amSz_subqs_fold _ _).trans ?_
  refine (Nat.add_le_add (amSz_tables_fold _ _) (subqsSz_inSelect S)).trans ?_
  omega

/-! ## Example 2 in the engine: the resolution never returns

Resolving the CTE body's unqualified `id` re-analyzes every registered
CTE — including `c` itself — so the seven functions below form a cycle
that consumes fuel forever.  `ex2_loop` shows each of them returns `none`
(the model of a Python `RecursionError`) at every fuel. -/

lemma ex2Body_projs : ex2Body.projs = [Sexpr.aliasE (.col "" "id") "cid"] := rfl

lemma ex2_amB :
    Engine.build_alias_map ex2Body [] [("c", ex2Body)] = [("t", Engine.Target.tbl "t")] := rfl

lemma ex2_cte : Engine.build_cte_map ex2Top = [("c", ex2Body)] := rfl

lemma ex2_loop : ∀ m,
    Engine.extract_select m ex2Body [] [("c", ex2Body)] = none ∧
    Engine.extract_cols m [Sexpr.aliasE (.col "" "id") "cid"]
      [("t", Engine.Target.tbl "t")] [("c", ex2Body)] = none ∧
    Engine.extract_column_metadata m (Sexpr.aliasE (.col "" "id") "cid")
      [("t", Engine.Target.tbl "t")] [("c", ex2Body)] = none ∧
    Engine.resolve_expression m (Sexpr.col "" "id")
      [("t", Engine.Target.tbl "t")] [("c", ex2Body)] = none ∧
    Engine.resolve_column m "" "id"
      [("t", Engine.Target.tbl "t")] [("c", ex2Body)] = none ∧
    Engine.resolve_unqualified m "id"
      [("t", Engine.Target.tbl "t")] [("c", ex2Body)] = none ∧
    Engine.cte_lineage_scan m [("c", ex2Body)] "id" [("c", ex2Body)] = none := by
  intro m
  induction m with
  | zero => exact ⟨rfl, rfl, rfl, rfl, rfl, rfl, rfl⟩
  | succ m ih =>
      obtain ⟨hES, hEC, hECM, hRE, hRC, hRU, hCLS⟩ := ih
      refine ⟨?_, ?_, ?_, ?_, ?_, ?_, ?_⟩
      · simp [Engine.extract_select, ex2Body_projs, ex2_amB, hEC]
      · simp [Engine.extract_cols, hECM]
      · simp [Engine.extract_column_metadata, hRE]
      · simp [Engine.resolve_expression, hRC]
      · simp [Engine.resolve_column, hRU]
      · simp [Engine.resolve_unqualified, hCLS]
      · simp [Engine.cte_lineage_scan, hES]

lemma ex2Top_projs : ex2Top.projs = [Sexpr.col "c" "cid"] := rfl

lemma ex2_amTop :
    Engine.build_alias_map ex2Top [] [("c", ex2Body)]
      = [("t", Engine.Target.tbl "t"), ("c", Engine.Target.tbl "c")] := rfl

lemma ex2_rvb : ∀ k,
    Engine.resolve_via_body k ex2Body "c" "cid" [("c", ex2Body)] = none := by
  intro k
  cases k with
  | zero => rfl
  | succ k => simp [Engine.resolve_via_body, (ex2_loop k).1]

lemma ex2_rc_top : ∀ k,
    Engine.resolve_column k "c" "cid"
      [("t", Engine.Target.tbl "t"), ("c", Engine.Target.tbl "c")] [("c", ex2Body)] = none := by
  intro k
  cases k with
  | zero => rfl
  | succ k => simp [Engine.resolve_column, dictGet, ex2_rvb k]

lemma ex2_re_top : ∀ k,
    Engine.resolve_expression k (Sexpr.col "c" "cid")
      [("t", Engine.Target.tbl "t"), ("c", Engine.Target.tbl "c")] [("c", ex2Body)] = none := by
  intro k
  cases k with
  | zero => rfl
  | succ k => simp [Engine.resolve_expression, ex2_rc_top k]

lemma ex2_ecm_top : ∀ k,
    Engine.extract_column_metadata k (Sexpr.col "c" "cid")
      [("t", Engine.Target.tbl "t"), ("c", Engine.Target.tbl "c")] [("c", ex2Body)] = none := by
  intro k
  cases k with
  | zero => rfl
  | succ k => simp [Engine.extract_column_metadata, ex2_re_top k]

lemma ex2_ec_top : ∀ k,
    Engine.extract_cols k [Sexpr.col "c" "cid"]
      [("t", Engine.Target.tbl "t"), ("c", Engine.Target.tbl "c")] [("c", ex2Body)] = none := by
  intro k
  cases k with
  | zero => rfl
  | succ k => simp [Engine.extract_cols, ex2_ecm_top k]

lemma ex2_es_top : ∀ k,
    Engine.extract_select k ex2Top [] [("c", ex2Body)] = none := by
  intro k
  cases k with
  | zero => rfl
  | succ k => simp [Engine.extract_select, ex2Top_projs, ex2_amTop, ex2_ec_top k]

/-- C1: for a qualified reference `T.C` with `T` in the CTE registry, the
spec (and `view_ddl_parser.resolve_column_lineage`, which yields exactly
`t.id` on spec Example 2) propagates the matching projection's own
lineage.  `ddl_lineage_engine.resolve_column` is structured that way, but
on that very example it never returns: analyzing the CTE body's
unqualified `id` re-analyzes every registered CTE including `c` itself,
without any guard, so the engine raises `RecursionError` (modeled by
`none` at every fuel) instead of returning `["t.id"]`. -/
theorem c1_cte_propagation :
    (∀ fuel, Engine.processSelect fuel ex2Top = none) ∧
    Vdl.resolve_projection 10 ex2Top (Sexpr.col "c" "cid") = some [("t", "id")] := by
  constructor
  · intro fuel
    unfold Engine.processSelect
    rw [ex2_cte]
    exact ex2_es_top fuel
  · rfl

/-! ## The same divergence on `c9Top`, whose CTE graph is acyclic
(the body of `w` references only the physical table `u`). -/

lemma c9Body_projs : c9Body.projs = [Sexpr.col "" "a"] := rfl

lemma c9_amB :
    Engine.build_alias_map c9Body [] [("w", c9Body)] = [("u", Engine.Target.tbl "u")] := rfl

lemma c9_cte : Engine.build_cte_map c9Top = [("w", c9Body)] := rfl

lemma c9_loop : ∀ m,
    Engine.extract_select m c9Body [] [("w", c9Body)] = none ∧
    Engine.extract_cols m [Sexpr.col "" "a"]
      [("u", Engine.Target.tbl "u")] [("w", c9Body)] = none ∧
    Engine.extract_column_metadata m (Sexpr.col "" "a")
      [("u", Engine.Target.tbl "u")] [("w", c9Body)] = none ∧
    Engine.resolve_expression m (Sexpr.col "" "a")
      [("u", Engine.Target.tbl "u")] [("w", c9Body)] = none ∧
    Engine.resolve_column m "" "a"
      [("u", Engine.Target.tbl "u")] [("w", c9Body)] = none ∧
    Engine.resolve_unqualified m "a"
      [("u", Engine.Target.tbl "u")] [("w", c9Body)] = none ∧
    Engine.cte_lineage_scan m [("w", c9Body)] "a" [("w", c9Body)] = none := by
  intro m
  induction m with
  | zero => exact ⟨rfl, rfl, rfl, rfl, rfl, rfl, rfl⟩
  | succ m ih =>
      obtain ⟨hES, hEC, hECM, hRE, hRC, hRU, hCLS⟩ := ih
      refine ⟨?_, ?_, ?_, ?_, ?_, ?_, ?_⟩
      · simp [Engine.extract_select, c9Body_projs, c9_amB, hEC]
      · simp [Engine.extract_cols, hECM]
      · simp [Engine.extract_column_metadata, hRE]
      · simp [Engine.resolve_expression, hRC]
      · simp [Engine.resolve_column, hRU]
      · simp [Engine.resolve_unqualified, hCLS]
      · simp [Engine.cte_lineage_scan, hES]

lemma c9Top_projs : c9Top.projs = [Sexpr.col "w" "a"] := rfl

lemma c9_amTop :
    Engine.build_alias_map c9Top [] [("w", c9Body)]
      = [("u", Engine.Target.tbl "u"), ("w", Engine.Target.tbl "w")] := rfl

lemma c9_rvb : ∀ k,
    Engine.resolve_via_body k c9Body "w" "a" [("w", c9Body)] = none := by
  intro k
  cases k with
  | zero => rfl
  | succ k => simp [Engine.resolve_via_body, (c9_loop k).1]

lemma c9_rc_top : ∀ k,
    Engine.resolve_column k "w" "a"
      [("u", Engine.Target.tbl "u"), ("w", Engine.Target.tbl "w")] [("w", c9Body)] = none := by
  intro k
  cases k with
  | zero => rfl
  | succ k => simp [Engine.resolve_column, dictGet, c9_rvb k]

lemma c9_re_top : ∀ k,
    Engine.resolve_expression k (Sexpr.col "w" "a")
      [("u", Engine.Target.tbl "u"), ("w", Engine.Target.tbl "w")] [("w", c9Body)] = none := by
  intro k
  cases k with
  | zero => rfl
  | succ k => simp [Engine.resolve_expression, c9_rc_top k]

lemma c9_ecm_top : ∀ k,
    Engine.extract_column_metadata k (Sexpr.col "w" "a")
      [("u", Engine.Target.tbl "u"), ("w", Engine.Target.tbl "w")] [("w", c9Body)] = none := by
  intro k
  cases k with
  | zero => rfl
  | succ k => simp [Engine.extract_column_metadata, c9_re_top k]

lemma c9_ec_top : ∀ k,
    Engine.extract_cols k [Sexpr.col "w" "a"]
      [("u", Engine.Target.tbl "u"), ("w", Engine.Target.tbl "w")] [("w", c9Body)] = none := by
  intro k
  cases k with
  | zero => rfl
  | succ k => simp [Engine.extract_cols, c9_ecm_top k]

lemma c9_es_top : ∀ k,
    Engine.extract_select k c9Top [] [("w", c9Body)] = none := by
  intro k
  cases k with
  | zero => rfl
  | succ k => simp [Engine.extract_select, c9Top_projs, c9_amTop, c9_ec_top k]

/-- C9, counterexample: `WITH w AS (SELECT a FROM u) SELECT w.a FROM w`
has an acyclic CTE graph (the body of `w` references only the physical
table `u`), yet the engine's mutually recursive resolution never
terminates on it at any recursion budget — the depth is not bounded by
the query's nesting depth. -/
theorem c9_acyclic_divergence :
    ¬ ∃ (n : Nat) (r : Engine.SelectMeta), Engine.processSelect n c9Top = some r := by
  rintro ⟨n, r, h⟩
  rw [Engine.processSelect, c9_cte, c9_es_top n] at h
  exact Option.noConfusion h

/-! ## Termination of the engine with an empty CTE registry

With no registered CTEs, every recursive call of the engine strictly
descends into subquery bodies, so fuel linear in the structural size
suffices.  The nine statements below are proved together by induction on
the fuel. -/

lemma engine_total : ∀ n : Nat,
    (∀ S : Select, 2 * szSel S ≤ n →
      (Engine.extract_select n S [] []).isSome = true) ∧
    (∀ (ps : List Sexpr) (am : Engine.AliasMap), 2 * (szProjs ps + amSz am) + 1 ≤ n →
      (Engine.extract_cols n ps am []).isSome = true) ∧
    (∀ (p : Sexpr) (am : Engine.AliasMap), 2 * (szE p + amSz am) + 2 ≤ n →
      (Engine.extract_column_metadata n p am []).isSome = true) ∧
    (∀ (e : Sexpr) (am : Engine.AliasMap), 2 * (szE e + amSz am) ≤ n →
      (Engine.resolve_expression n e am []).isSome = true) ∧
    (∀ (l : List Sexpr) (am : Engine.AliasMap), 2 * (szArgs l + amSz am) + 1 ≤ n →
      (Engine.resolve_expr_list n l am []).isSome = true) ∧
    (∀ (tq name : String) (am : Engine.AliasMap), 2 * amSz am + 3 ≤ n →
      (Engine.resolve_column n tq name am []).isSome = true) ∧
    (∀ (b : Select) (tq name : String), 2 * szSel b + 1 ≤ n →
      (Engine.resolve_via_body n b tq name []).isSome = true) ∧
    (∀ (name : String) (am : Engine.AliasMap), 2 ≤ n →
      (Engine.resolve_unqualified n name am []).isSome = true) ∧
    (∀ name : String, 1 ≤ n →
      (Engine.cte_lineage_scan n [] name []).isSome = true) := by
  intro n
  induction n with
  | zero =>
      refine ⟨?_, ?_, ?_, ?_, ?_, ?_, ?_, ?_, ?_⟩
      · intro S h; exfalso; have := szSel_pos S; omega
      · intro ps am h; exfalso; omega
      · intro p am h; exfalso; omega
      · intro e am h; exfalso; have := szE_pos e; omega
      · intro l am h; exfalso; omega
      · intro tq name am h; exfalso; omega
      · intro b tq name h; exfalso; omega
      · intro name am h; exfalso; omega
      · intro name h; exfalso; omega
  | succ n ih =>
      obtain ⟨ihES, ihEC, ihECM, ihRE, ihREL, ihRC, ihRVB, ihRU, ihCLS⟩ := ih
      refine ⟨?_, ?_, ?_, ?_, ?_, ?_, ?_, ?_, ?_⟩
      · -- extract_select
        intro S hS
        have ham := amSz_build S [] []
        simp only [amSz] at ham
        have hszeq := szSel_eq S
        have hEC := ihEC S.projs (Engine.build_alias_map S [] []) (by omega)
        obtain ⟨cols, hc⟩ := Option.isSome_iff_exists.mp hEC
        simp [Engine.extract_select, hc]
      · -- extract_cols
        intro ps am h
        cases ps with
        | nil => simp [Engine.extract_cols]
        | cons p ps' =>
            simp only [szProjs] at h
            have hECM := ihECM p am (by omega)
            obtain ⟨c, hc⟩ := Option.isSome_iff_exists.mp hECM
            have hEC := ihEC ps' am (by omega)
            obtain ⟨cs, hcs⟩ := Option.isSome_iff_exists.mp hEC
            simp [Engine.extract_cols, hc, hcs]
      · -- extract_column_metadata
        intro p am h
        cases p with
        | aliasE e a =>
            simp only [szE] at h
            have hRE := ihRE e am (by omega)
            obtain ⟨l, hl⟩ := Option.isSome_iff_exists.mp hRE
            simp [Engine.extract_column_metadata, hl]
        | col t c =>
            have hRE := ihRE (.col t c) am (by omega)
            obtain ⟨l, hl⟩ := Option.isSome_iff_exists.mp hRE
            simp [Engine.extract_column_metadata, hl]
        | func f args =>
            have hRE := ihRE (.func f args) am (by omega)
            obtain ⟨l, hl⟩ := Option.isSome_iff_exists.mp hRE
            simp [Engine.extract_column_metadata, hl]
        | lit v =>
            have hRE := ihRE (.lit v) am (by omega)
            obtain ⟨l, hl⟩ := Option.isSome_iff_exists.mp hRE
            simp [Engine.extract_column_metadata, hl]
        | identE s =>
            have hRE := ihRE (.identE s) am (by omega)
            obtain ⟨l, hl⟩ := Option.isSome_iff_exists.mp hRE
            simp [Engine.extract_column_metadata, hl]
      · -- resolve_expression
        intro e am h
        cases e with
        | col t c =>
            simp only [szE] at h
            have hRC := ihRC t c am (by omega)
            obtain ⟨l, hl⟩ := Option.isSome_iff_exists.mp hRC
            simp [Engine.resolve_expression, hl]
        | aliasE e' a =>
            have hch := szE_children_le (.aliasE e' a)
            have hREL := ihREL (Sexpr.children (.aliasE e' a)) am (by omega)
            obtain ⟨ls, hls⟩ := Option.isSome_iff_exists.mp hREL
            simp [Engine.resolve_expression, hls]
        | func f args =>
            have hch := szE_children_le (.func f args)
            have hREL := ihREL (Sexpr.children (.func f args)) am (by omega)
            obtain ⟨ls, hls⟩ := Option.isSome_iff_exists.mp hREL
            simp [Engine.resolve_expression, hls]
        | lit v =>
            have hch := szE_children_le (.lit v)
            have hREL := ihREL (Sexpr.children (.lit v)) am (by omega)
            obtain ⟨ls, hls⟩ := Option.isSome_iff_exists.mp hREL
            simp [Engine.resolve_expression, hls]
        | identE s =>
            have hch := szE_children_le (.identE s)
            have hREL := ihREL (Sexpr.children (.identE s)) am (by omega)
            obtain ⟨ls, hls⟩ := Option.isSome_iff_exists.mp hREL
            simp [Engine.resolve_expression, hls]
      · -- resolve_expr_list
        intro l am h
        cases l with
        | nil => simp [Engine.resolve_expr_list]
        | cons x xs =>
            simp only [szArgs] at h
            have hRE := ihRE x am (by omega)
            obtain ⟨r, hr⟩ := Option.isSome_iff_exists.mp hRE
            have hREL := ihREL xs am (by omega)
            obtain ⟨rs, hrs⟩ := Option.isSome_iff_exists.mp hREL
            simp [Engine.resolve_expr_list, hr, hrs]
      · -- resolve_column
        intro tq name am h
        by_cases htq : tq = ""
        · have hRU := ihRU name am (by omega)
          obtain ⟨r, hr⟩ := Option.isSome_iff_exists.mp hRU
          simp [Engine.resolve_column, htq, hr]
        · cases hget : dictGet am tq with
          | none =>
              have hRU := ihRU name am (by omega)
              obtain ⟨r, hr⟩ := Option.isSome_iff_exists.mp hRU
              simp [Engine.resolve_column, htq, hget, dictGet, hr]
          | some v =>
              cases v with
              | tbl t => simp [Engine.resolve_column, htq, hget, dictGet]
              | sub q =>
                  obtain ⟨b, a⟩ := q
                  have hle := dictGet_tgtSz am tq _ hget
                  simp only [tgtSz] at hle
                  have hRVB := ihRVB b tq name (by omega)
                  obtain ⟨r, hr⟩ := Option.isSome_iff_exists.mp hRVB
                  simp [Engine.resolve_column, htq, hget, Subq.body, hr]
      · -- resolve_via_body
        intro b tq name h
        have hES := ihES b (by omega)
        obtain ⟨meta, hm⟩ := Option.isSome_iff_exists.mp hES
        cases hfm : Engine.firstMatch meta.columns name with
        | none => simp [Engine.resolve_via_body, hm, hfm]
        | some lin => simp [Engine.resolve_via_body, hm, hfm]
      · -- resolve_unqualified
        intro name am h
        have hCLS := ihCLS name (by omega)
        obtain ⟨exts, he⟩ := Option.isSome_iff_exists.mp hCLS
        simp [Engine.resolve_unqualified, he]
      · -- cte_lineage_scan on the empty registry
        intro name h
        simp [Engine.cte_lineage_scan]

/-- C9, amended: no depth or cycle guard exists and acyclicity of the
CTE graph is not sufficient for termination (see the counterexample: an
unqualified column inside any registered CTE body makes resolution
re-analyze the registry forever).  What does hold: with an empty CTE
registry the mutually recursive resolution terminates whenever the fuel
(recursion budget) is at least twice the query's structural size, i.e.
the recursion depth is bounded linearly by the nesting structure. -/
theorem c9_empty_registry_terminates (fuel : Nat) (S : Select)
    (h : 2 * szSel S ≤ fuel) :
    (Engine.extract_select fuel S [] []).isSome = true :=
  (engine_total fuel).1 S h

theorem c9_empty_registry_terminates_witness :
    2 * szSel c4SubTop ≤ 70 ∧ (Engine.extract_select 70 c4SubTop [] []).isSome = true :=
  ⟨by decide, c9_empty_registry_terminates 70 c4SubTop (by decide)⟩

/-! ## C2: unqualified resolution is a deduplicated union -/

lemma physRefs_mem (am : Engine.AliasMap) (name a t : String)
    (h : (a, Engine.Target.tbl t) ∈ am) :
    (t ++ "." ++ name) ∈ Engine.physRefs am name := by
  unfold Engine.physRefs
  exact List.mem_filterMap.mpr ⟨(a, .tbl t), h, rfl⟩

lemma dedupFirst_isEmpty (l : List String) (h : (dedupFirst l).isEmpty = true) : l = [] := by
  cases l with
  | nil => rfl
  | cons x xs => simp [dedupFirst, dedupFirstAux] at h

lemma resolve_unqual_eq (n : Nat) (name : String) (am : Engine.AliasMap)
    (cte : Engine.CteMap) :
    Engine.resolve_column (n+1) "" name am cte = Engine.resolve_unqualified n name am cte := rfl

/-- `resolve_unqualified` at positive fuel, unfolded. -/
lemma resolve_unqualified_succ (n : Nat) (name : String) (am : Engine.AliasMap)
    (cte : Engine.CteMap) :
    Engine.resolve_unqualified (n+1) name am cte
      = match Engine.cte_lineage_scan n cte name cte with
        | none => none
        | some exts =>
            some (if (dedupFirst (Engine.physRefs am name ++ exts)).isEmpty then [name]
                  else dedupFirst (Engine.physRefs am name ++ exts)) := rfl

/-- C2: an unqualified column resolves to the deduplicated union of one
"table.C" per physical binding in scope plus the propagated lineage of
every matching registered-CTE output column (the CTE scan), with the bare
name as the fallback when the union is empty; every physical table and
every scanned CTE contribution is in the result (union, not a single
pick).  On `SELECT id FROM t1, t2` the lineage of `id` is exactly
`["t1.id", "t2.id"]`. -/
theorem c2_unqualified_union :
    (∀ (f : Nat) (name : String) (am : Engine.AliasMap) (cte : Engine.CteMap)
        (r : List String),
      Engine.resolve_column f "" name am cte = some r →
      ∃ m exts, f = m + 2 ∧ Engine.cte_lineage_scan m cte name cte = some exts ∧
        r = (if (dedupFirst (Engine.physRefs am name ++ exts)).isEmpty then [name]
             else dedupFirst (Engine.physRefs am name ++ exts)) ∧
        (∀ a t, (a, Engine.Target.tbl t) ∈ am → (t ++ "." ++ name) ∈ r) ∧
        (∀ x, x ∈ exts → x ∈ r)) ∧
    (Engine.processSelect 8 c2Top).map (fun m => m.columns.map (fun c => c.lineage))
      = some [["t1.id", "t2.id"]] := by
  constructor
  · intro f name am cte r h
    cases f with
    | zero => exact Option.noConfusion h
    | succ f1 =>
        cases f1 with
        | zero =>
            rw [resolve_unqual_eq 0] at h
            exact Option.noConfusion h
        | succ m =>
            rw [resolve_unqual_eq (m+1), resolve_unqualified_succ m] at h
            cases hscan : Engine.cte_lineage_scan m cte name cte with
            | none => rw [hscan] at h; exact Option.noConfusion h
            | some exts =>
                rw [hscan] at h
                injection h with hr
                refine ⟨m, exts, rfl, hscan, hr.symm, ?_, ?_⟩
                · intro a t hmem
                  have hp := physRefs_mem am name a t hmem
                  subst hr
                  by_cases hemp :
                      (dedupFirst (Engine.physRefs am name ++ exts)).isEmpty = true
                  · exfalso
                    have := dedupFirst_isEmpty _ hemp
                    rw [List.append_eq_nil] at this
                    rw [this.1] at hp
                    exact List.not_mem_nil _ hp
                  · rw [if_neg hemp]
                    exact (dedupFirst_mem _ _).mpr (List.mem_append.mpr (Or.inl hp))
                · intro x hx
                  subst hr
                  by_cases hemp :
                      (dedupFirst (Engine.physRefs am name ++ exts)).isEmpty = true
                  · exfalso
                    have := dedupFirst_isEmpty _ hemp
                    rw [List.append_eq_nil] at this
                    rw [this.2] at hx
                    exact List.not_mem_nil _ hx
                  · rw [if_neg hemp]
                    exact (dedupFirst_mem _ _).mpr (List.mem_append.mpr (Or.inr hx))
  · rfl

theorem c2_unqualified_union_witness :
    ∃ m exts, 4 = m + 2 ∧
      Engine.cte_lineage_scan m [] "id" [] = some exts ∧
      ["t1.id", "t2.id"]
        = (if (dedupFirst (Engine.physRefs
              [("t1", Engine.Target.tbl "t1"), ("t2", Engine.Target.tbl "t2")] "id"
              ++ exts)).isEmpty then ["id"]
           else dedupFirst (Engine.physRefs
              [("t1", Engine.Target.tbl "t1"), ("t2", Engine.Target.tbl "t2")] "id"
              ++ exts)) ∧
      (∀ a t, (a, Engine.Target.tbl t)
          ∈ [("t1", Engine.Target.tbl "t1"), ("t2", Engine.Target.tbl "t2")] →
        (t ++ "." ++ "id") ∈ ["t1.id", "t2.id"]) ∧
      (∀ x, x ∈ exts → x ∈ ["t1.id", "t2.id"]) :=
  c2_unqualified_union.1 4 "id"
    [("t1", Engine.Target.tbl "t1"), ("t2", Engine.Target.tbl "t2")] []
    ["t1.id", "t2.id"] (by rfl)

/-! ## C3: dangling qualifiers -/

/-- In the engine, a truthy qualifier bound to nothing (neither alias-map
entry nor CTE) falls through to the unqualified case-2 scan — the
qualifier is dropped. -/
lemma rc_dangling_fallthrough (n : Nat) (tq name : String) (am : Engine.AliasMap)
    (cte : Engine.CteMap) (htq : tq ≠ "") (ham : dictGet am tq = none)
    (hcte : dictGet cte tq = none) :
    Engine.resolve_column (n+1) tq name am cte = Engine.resolve_unqualified n name am cte := by
  simp [Engine.resolve_column, htq, ham, hcte]

/-- C3, counterexample: a dangling qualifier `x` with two physical tables
in scope resolves (in the engine) to the union of both tables' references
— not to the literal fallback `["x.C"]` the claim requires. -/
theorem c3_dangling_counterexample :
    Engine.resolve_column 4 "x" "C"
      [("a", Engine.Target.tbl "t1"), ("b", Engine.Target.tbl "t2")] []
      = some ["t1.C", "t2.C"] ∧ (["t1.C", "t2.C"] : List String) ≠ ["x.C"] :=
  ⟨rfl, by decide⟩

/-- C3, amended: resolution of a dangling qualifier never fails, but the
two cited implementations behave differently.  In the engine
(`ddl_lineage_engine.resolve_column`) the qualifier falls through to the
unqualified scan (dropping the qualifier); with exactly one physical
binding and an empty registry this yields that table's reference.  In
`parse_view_ddl.DDLMetadataParser.resolve_column` the claimed behavior is
exact: one physical table → that table's reference, otherwise the
literal `T.C`. -/
theorem c3_dangling_amended :
    (∀ (n : Nat) (tq name : String) (am : Engine.AliasMap) (cte : Engine.CteMap),
      tq ≠ "" → dictGet am tq = none → dictGet cte tq = none →
      Engine.resolve_column (n+1) tq name am cte
        = Engine.resolve_unqualified n name am cte) ∧
    (∀ (n : Nat) (tq name t a : String), tq ≠ "" → tq ≠ a →
      Engine.resolve_column (n+3) tq name [(a, Engine.Target.tbl t)] []
        = some [t ++ "." ++ name]) ∧
    (∀ (n : Nat) (T name : String) (am : Pvd.AliasMap),
      T ≠ "" → dictGet am.aliases T = none →
      Pvd.resolve_column (n+1) T name am
        = some (Pvd.resolve_unknown_alias T am name)) ∧
    (∀ (T name : String) (am : Pvd.AliasMap), am.physical_tables.length = 1 →
      ∃ t, am.physical_tables = [t] ∧
        Pvd.resolve_unknown_alias T am name = [t ++ "." ++ name]) ∧
    (∀ (T name : String) (am : Pvd.AliasMap), am.physical_tables.length ≠ 1 →
      Pvd.resolve_unknown_alias T am name = [T ++ "." ++ name]) := by
  refine ⟨rc_dangling_fallthrough, ?_, ?_, ?_, ?_⟩
  · intro n tq name t a htq hne
    show Engine.resolve_column (n+2+1) tq name [(a, Engine.Target.tbl t)] []
      = some [t ++ "." ++ name]
    rw [rc_dangling_fallthrough (n+2) tq name [(a, Engine.Target.tbl t)] [] htq ?_ rfl]
    · rw [resolve_unqualified_succ]
      rfl
    · simp [dictGet]
      intro h
      exact absurd h.symm hne
  · intro n T name am hT ham
    simp [Pvd.resolve_column, ham, hT]
  · intro T name am hlen
    obtain ⟨t, hpt⟩ : ∃ t, am.physical_tables = [t] := by
      cases hpt : am.physical_tables with
      | nil => rw [hpt] at hlen; simp at hlen
      | cons x xs =>
          cases xs with
          | nil => exact ⟨x, rfl⟩
          | cons y ys => rw [hpt] at hlen; simp at hlen
    refine ⟨t, hpt, ?_⟩
    unfold Pvd.resolve_unknown_alias
    rw [hpt]
  · intro T name am hlen
    unfold Pvd.resolve_unknown_alias
    cases hpt : am.physical_tables with
    | nil => rfl
    | cons x xs =>
        cases xs with
        | nil => rw [hpt] at hlen; simp at hlen
        | cons y ys => rfl

theorem c3_dangling_amended_witness :
    (Engine.resolve_column 3 "x" "C"
        [("a", Engine.Target.tbl "t1"), ("b", Engine.Target.tbl "t2")] []
      = Engine.resolve_unqualified 2 "C"
        [("a", Engine.Target.tbl "t1"), ("b", Engine.Target.tbl "t2")] []) ∧
    (Engine.resolve_column 5 "x" "C" [("a", Engine.Target.tbl "t1")] []
      = some ["t1" ++ "." ++ "C"]) ∧
    (Pvd.resolve_column 3 "x" "C" (Pvd.AliasMap.mk [] ["t1", "t2"])
      = some (Pvd.resolve_unknown_alias "x" (Pvd.AliasMap.mk [] ["t1", "t2"]) "C")) ∧
    (∃ t, (Pvd.AliasMap.mk [] ["t1"]).physical_tables = [t] ∧
      Pvd.resolve_unknown_alias "x" (Pvd.AliasMap.mk [] ["t1"]) "C" = [t ++ "." ++ "C"]) ∧
    (Pvd.resolve_unknown_alias "x" (Pvd.AliasMap.mk [] ["t1", "t2"]) "C"
      = ["x" ++ "." ++ "C"]) :=
  ⟨c3_dangling_amended.1 2 "x" "C" _ [] (by decide) (by rfl) (by rfl),
   c3_dangling_amended.2.1 2 "x" "C" "t1" "a" (by decide) (by decide),
   c3_dangling_amended.2.2.1 2 "x" "C" _ (by decide) (by rfl),
   c3_dangling_amended.2.2.2.1 "x" "C" _ (by decide),
   c3_dangling_amended.2.2.2.2 "x" "C" _ (by decide)⟩

/-! ## C4: CTE vs inline-subquery equivalence -/

/-- C4, counterexample: the same derived relation written as a CTE versus
as an inline aliased subquery.  For the unqualified output column `x`,
the CTE version unions in the CTE-name pseudo-table and the scanned CTE
lineage (`["t.x", "c.x", "t.a"]`) while the subquery version returns only
`["t.x"]` — the two paths are not identical. -/
theorem c4_not_identical :
    (Engine.processSelect 20 c4CteTop).map (fun m => m.columns.map (fun c => c.lineage))
      = some [["t.x", "c.x", "t.a"]] ∧
    (Engine.processSelect 20 c4SubTop).map (fun m => m.columns.map (fun c => c.lineage))
      = some [["t.x"]] ∧
    (["t.x", "c.x", "t.a"] : List String) ≠ ["t.x"] :=
  ⟨rfl, rfl, by decide⟩

/-- C4, amended: for a QUALIFIED reference `T.C` the subquery path and
the CTE path run the same procedure on the shared body, so they agree
whenever the body's analysis does not depend on the CTE registry (e.g. a
fully qualified body); on spec-style qualified examples both versions
give `["t.a"]`.  For unqualified references the paths differ (see the
counterexample). -/
theorem c4_qualified_equivalence :
    (∀ (m : Nat) (T C : String) (am1 am2 : Engine.AliasMap) (cte1 : Engine.CteMap)
        (B : Select) (al : String),
      T ≠ "" →
      dictGet am2 T = some (Engine.Target.sub (.mk B al)) →
      (∀ q, dictGet am1 T ≠ some (Engine.Target.sub q)) →
      dictGet cte1 T = some B →
      Engine.extract_select m B [] cte1 = Engine.extract_select m B [] [] →
      Engine.resolve_column (m+2) T C am1 cte1 = Engine.resolve_column (m+2) T C am2 []) ∧
    (Engine.processSelect 20 c4CteTopQ).map (fun m => m.columns.map (fun c => c.lineage))
      = some [["t.a"]] ∧
    (Engine.processSelect 20 c4SubTopQ).map (fun m => m.columns.map (fun c => c.lineage))
      = some [["t.a"]] := by
  refine ⟨?_, rfl, rfl⟩
  intro m T C am1 am2 cte1 B al hT hsub hnsub hcte h5
  have hL : Engine.resolve_column (m+1+1) T C am1 cte1
      = Engine.resolve_via_body (m+1) B T C cte1 := by
    cases hget : dictGet am1 T with
    | none => simp [Engine.resolve_column, hT, hget, hcte]
    | some v =>
        cases v with
        | tbl s => simp [Engine.resolve_column, hT, hget, hcte]
        | sub q => exact absurd hget (hnsub q)
  have hR : Engine.resolve_column (m+1+1) T C am2 []
      = Engine.resolve_via_body (m+1) B T C [] := by
    simp [Engine.resolve_column, hT, hsub, Subq.body, dictGet]
  show Engine.resolve_column (m+1+1) T C am1 cte1 = Engine.resolve_column (m+1+1) T C am2 []
  rw [hL, hR]
  simp [Engine.resolve_via_body, h5]

theorem c4_qualified_equivalence_witness :
    Engine.resolve_column 12 "c" "x"
        [("t", Engine.Target.tbl "t"), ("c", Engine.Target.tbl "c")] [("c", c4Body)]
      = Engine.resolve_column 12 "c" "x"
        [("t", Engine.Target.tbl "t"), ("c", Engine.Target.sub (.mk c4Body "c"))] [] :=
  c4_qualified_equivalence.1 10 "c" "x"
    [("t", Engine.Target.tbl "t"), ("c", Engine.Target.tbl "c")]
    [("t", Engine.Target.tbl "t"), ("c", Engine.Target.sub (.mk c4Body "c"))]
    [("c", c4Body)] c4Body "c"
    (by decide) (by rfl)
    (by intro q h; simp [dictGet] at h)
    (by rfl) (by rfl)

/-! ## C5: what the alias scope actually covers -/

lemma dictGet_insert_isSome {α : Type} :
    ∀ (m : List (String × α)) (k k' : String) (v : α),
      (dictGet m k').isSome = true ∨ k' = k →
      (dictGet (dictInsert m k v) k').isSome = true := by
  intro m k k' v h
  induction m with
  | nil =>
      rcases h with h | h
      · simp [dictGet] at h
      · subst h
        simp [dictInsert, dictGet]
  | cons kv rest ih =>
      obtain ⟨a, b⟩ := kv
      rw [dictInsert]
      by_cases hak : a = k
      · rw [if_pos hak]
        rw [dictGet]
        by_cases hk' : k = k'
        · rw [if_pos hk']; rfl
        · rw [if_neg hk']
          rcases h with h | h
          · rw [dictGet] at h
            rw [hak, if_neg hk'] at h
            exact h
          · exact absurd h.symm hk'
      · rw [if_neg hak]
        rw [dictGet]
        by_cases hak' : a = k'
        · rw [if_pos hak']; rfl
        · rw [if_neg hak']
          apply ih
          rcases h with h | h
          · left
            rw [dictGet, if_neg hak'] at h
            exact h
          · right; exact h

lemma tables_fold_isSome :
    ∀ (ts : List (String × String)) (pam : Engine.AliasMap) (k : String),
      (dictGet pam k).isSome = true ∨ (∃ na ∈ ts, aliasOrName na.1 na.2 = k) →
      (dictGet (ts.foldl
        (fun m na => dictInsert m (aliasOrName na.1 na.2) (Engine.Target.tbl na.1)) pam)
        k).isSome = true := by
  intro ts
  induction ts with
  | nil =>
      intro pam k h
      rcases h with h | ⟨na, hna, _⟩
      · exact h
      · exact absurd hna (List.not_mem_nil _)
  | cons t rest ih =>
      intro pam k h
      simp only [List.foldl_cons]
      apply ih
      rcases h with h | ⟨na, hna, hk⟩
      · left; exact dictGet_insert_isSome _ _ _ _ (Or.inl h)
      · rcases List.mem_cons.mp hna with rfl | hna'
        · left; exact dictGet_insert_isSome _ _ _ _ (Or.inr hk.symm)
        · right; exact ⟨na, hna', hk⟩

lemma subqs_fold_isSome :
    ∀ (qs : List Subq) (am : Engine.AliasMap) (k : String),
      (dictGet am k).isSome = true ∨ (∃ q ∈ qs, q.aliasName = k ∧ q.aliasName ≠ "") →
      (dictGet (qs.foldl
        (fun m q => if q.aliasName ≠ "" then dictInsert m q.aliasName (Engine.Target.sub q) else m)
        am) k).isSome = true := by
  intro qs
  induction qs with
  | nil =>
      intro am k h
      rcases h with h | ⟨q, hq, _⟩
      · exact h
      · exact absurd hq (List.not_mem_nil _)
  | cons q rest ih =>
      intro am k h
      simp only [List.foldl_cons]
      apply ih
      rcases h with h | ⟨q', hq', hk, hne⟩
      · left
        by_cases ha : q.aliasName ≠ ""
        · rw [if_pos ha]
          exact dictGet_insert_isSome _ _ _ _ (Or.inl h)
        · rw [if_neg ha]; exact h
      · rcases List.mem_cons.mp hq' with rfl | hmem
        · left
          rw [if_pos hne]
          exact dictGet_insert_isSome _ _ _ _ (Or.inr hk.symm)
        · right; exact ⟨q', hmem, hk, hne⟩

/-- C5, counterexample: in `SELECT x FROM (SELECT t.a AS x FROM t) c` the
physical table `t` occurs only inside the nested subquery body, yet the
outer block's alias scope binds it — the scope is not limited to the
block's own FROM/JOIN list (`["c"]`). -/
theorem c5_scope_counterexample :
    dictGet (Engine.build_alias_map c4SubTop [] []) "t" = some (Engine.Target.tbl "t") ∧
    spec_own_from_aliases c4SubTop = ["c"] ∧
    ("t" : String) ∉ spec_own_from_aliases c4SubTop :=
  ⟨rfl, rfl, by decide⟩

/-- C5, amended: the alias scope binds the alias-or-name of EVERY
physical table and the alias of every aliased subquery found anywhere
structurally under the SELECT — including those inside nested subquery
and CTE bodies — on top of all parent-scope bindings; it is not
restricted to the block's own FROM/JOIN list. -/
theorem c5_scope_amended :
    (∀ (S : Select) (pam : Engine.AliasMap) (cte : Engine.CteMap) (n a : String),
      (n, a) ∈ tablesInSelect S →
      ∃ tgt, dictGet (Engine.build_alias_map S pam cte) (aliasOrName n a) = some tgt) ∧
    (∀ (S : Select) (pam : Engine.AliasMap) (cte : Engine.CteMap) (q : Subq),
      q ∈ subqsInSelect S → q.aliasName ≠ "" →
      ∃ tgt, dictGet (Engine.build_alias_map S pam cte) q.aliasName = some tgt) := by
  constructor
  · intro S pam cte n a hmem
    rw [← Option.isSome_iff_exists]
    unfold Engine.build_alias_map
    exact subqs_fold_isSome _ _ _
      (Or.inl (tables_fold_isSome _ _ _ (Or.inr ⟨(n, a), hmem, rfl⟩)))
  · intro S pam cte q hmem hne
    rw [← Option.isSome_iff_exists]
    unfold Engine.build_alias_map
    exact subqs_fold_isSome _ _ _ (Or.inr ⟨q, hmem, rfl, hne⟩)

theorem c5_scope_amended_witness :
    (∃ tgt, dictGet (Engine.build_alias_map c4SubTop [] []) (aliasOrName "t" "") = some tgt) ∧
    (∃ tgt, dictGet (Engine.build_alias_map c4SubTop [] []) (Subq.mk c4Body "c").aliasName
      = some tgt) :=
  ⟨c5_scope_amended.1 c4SubTop [] [] "t" "" (by decide),
   c5_scope_amended.2 c4SubTop [] [] (.mk c4Body "c")
     (by exact List.mem_singleton.mpr rfl) (by decide)⟩

/-! ## C6: non-column identifiers -/

/-- C6: the `is_noncolumn_identifier` guard is dead at its only call
site: the resolver only ever passes `Column` nodes, on which the function
returns `false` for every parent kind — so nothing is excluded by parent
inspection.  Concretely, `DATEADD(day, 1, x)` parsed as an anonymous
function (whose bare arguments are `Column` nodes, the default-dialect
sqlglot parse) leaks the unit `day` into the lineage as `(t, day)`.
Identifiers the parser represents as `Identifier` nodes contribute
nothing in the engine, but only because `resolve_expression` produces
lineage solely at `Column` nodes, not because of any parent check. -/
theorem c6_noncolumn_guard_dead :
    (∀ (t c : String) (pk : ParentK),
      Vdl.is_noncolumn_identifier (.col t c) pk = false) ∧
    Vdl.resolve_column_lineage 5 c6Expr [("t", "t")] [] []
      = some [("t", "day"), ("t", "x")] ∧
    (∀ (n : Nat) (s : String) (am : Engine.AliasMap) (cte : Engine.CteMap),
      Engine.resolve_expression (n+2) (.identE s) am cte = some []) := by
  refine ⟨?_, rfl, ?_⟩
  · intro t c pk; rfl
  · intro n s am cte; rfl

/-! ## C7: reported output name and formula -/

/-- C7, counterexample: a plain qualified column projection `c.cid`
without an alias is reported under the RENDERED text "c.cid", not the
bare name "cid" the claim requires. -/
theorem c7_naming_counterexample :
    Engine.extract_column_metadata 5 (.col "c" "cid") [("c", Engine.Target.tbl "tc")] []
      = some (Engine.ColMeta.mk "c.cid" "c.cid" ["tc.cid"]) ∧
    ("c.cid" : String) ≠ "cid" :=
  ⟨rfl, by decide⟩

/-- C7, amended: the output name is the explicit alias when one is
written; for ANY other projection it is the rendered projection text
(which equals the bare name only for an unqualified plain column, and
keeps the qualifier for a qualified one); the formula is always the
rendered expression text. -/
theorem c7_naming_amended :
    (∀ (n : Nat) (e : Sexpr) (a : String) (am : Engine.AliasMap) (cte : Engine.CteMap)
        (r : Engine.ColMeta),
      Engine.extract_column_metadata (n+1) (.aliasE e a) am cte = some r →
      r.column_name = a ∧ r.expression = e.sql) ∧
    (∀ (n : Nat) (proj : Sexpr) (am : Engine.AliasMap) (cte : Engine.CteMap)
        (r : Engine.ColMeta),
      (∀ e a, proj ≠ .aliasE e a) →
      Engine.extract_column_metadata (n+1) proj am cte = some r →
      r.column_name = proj.sql ∧ r.expression = proj.sql) ∧
    (∀ c : String, (Sexpr.col "" c).sql = c) ∧
    (∀ t c : String, t ≠ "" → (Sexpr.col t c).sql = t ++ "." ++ c) := by
  refine ⟨?_, ?_, ?_, ?_⟩
  · intro n e a am cte r h
    rw [show Engine.extract_column_metadata (n+1) (.aliasE e a) am cte
        = (match Engine.resolve_expression n e am cte with
           | none => none
           | some lin => some (Engine.ColMeta.mk a e.sql lin)) from rfl] at h
    cases hre : Engine.resolve_expression n e am cte with
    | none => rw [hre] at h; exact Option.noConfusion h
    | some lin =>
        rw [hre] at h
        injection h with h'
        rw [← h']
        exact ⟨rfl, rfl⟩
  · intro n proj am cte r hne h
    have hstep : Engine.extract_column_metadata (n+1) proj am cte
        = (match Engine.resolve_expression n proj am cte with
           | none => none
           | some lin => some (Engine.ColMeta.mk proj.sql proj.sql lin)) := by
      cases proj with
      | aliasE e a => exact absurd rfl (hne e a)
      | col t c => rfl
      | func f args => rfl
      | lit v => rfl
      | identE s => rfl
    rw [hstep] at h
    cases hre : Engine.resolve_expression n proj am cte with
    | none => rw [hre] at h; exact Option.noConfusion h
    | some lin =>
        rw [hre] at h
        injection h with h'
        rw [← h']
        exact ⟨rfl, rfl⟩
  · intro c; rfl
  · intro t c ht; simp [Sexpr.sql, ht]

theorem c7_naming_amended_witness :
    ((Engine.ColMeta.mk "nice" "c.cid" ["tc.cid"]).column_name = "nice" ∧
     (Engine.ColMeta.mk "nice" "c.cid" ["tc.cid"]).expression = (Sexpr.col "c" "cid").sql) ∧
    ((Engine.ColMeta.mk "c.cid" "c.cid" ["tc.cid"]).column_name = (Sexpr.col "c" "cid").sql ∧
     (Engine.ColMeta.mk "c.cid" "c.cid" ["tc.cid"]).expression = (Sexpr.col "c" "cid").sql) ∧
    (Sexpr.col "c" "cid").sql = "c" ++ "." ++ "cid" :=
  ⟨c7_naming_amended.1 4 (.col "c" "cid") "nice" [("c", Engine.Target.tbl "tc")] []
     (Engine.ColMeta.mk "nice" "c.cid" ["tc.cid"]) (by rfl),
   c7_naming_amended.2.1 4 (.col "c" "cid") [("c", Engine.Target.tbl "tc")] []
     (Engine.ColMeta.mk "c.cid" "c.cid" ["tc.cid"])
     (by intro e a h; exact Sexpr.noConfusion h) (by rfl),
   c7_naming_amended.2.2.2 "c" "cid" (by decide)⟩

/-! ## C8: resolution results are deduplicated, in first-occurrence order -/

lemma firstMatch_mem : ∀ (cols : List Engine.ColMeta) (name : String) (lin : List String),
    Engine.firstMatch cols name = some lin → ∃ c ∈ cols, c.lineage = lin := by
  intro cols
  induction cols with
  | nil => intro name lin h; exact Option.noConfusion h
  | cons c cs ih =>
      intro name lin h
      rw [Engine.firstMatch] at h
      by_cases hc : c.column_name = name
      · rw [if_pos hc] at h
        injection h with h'
        exact ⟨c, List.mem_cons_self c cs, h'⟩
      · rw [if_neg hc] at h
        obtain ⟨c', hmem, hlin⟩ := ih name lin h
        exact ⟨c', List.mem_cons_of_mem c hmem, hlin⟩

lemma ru_nodup : ∀ (m : Nat) (name : String) (am : Engine.AliasMap) (cte : Engine.CteMap)
    (r : List String), Engine.resolve_unqualified m name am cte = some r → r.Nodup := by
  intro m name am cte r h
  cases m with
  | zero => exact Option.noConfusion h
  | succ k =>
      rw [resolve_unqualified_succ] at h
      cases hscan : Engine.cte_lineage_scan k cte name cte with
      | none => rw [hscan] at h; exact Option.noConfusion h
      | some exts =>
          rw [hscan] at h
          injection h with h'
          rw [← h']
          by_cases hemp : (dedupFirst (Engine.physRefs am name ++ exts)).isEmpty = true
          · rw [if_pos hemp]; exact List.nodup_singleton _
          · rw [if_neg hemp]; exact dedupFirst_nodup _

lemma engine_nodup : ∀ n : Nat,
    (∀ (S : Select) (pam : Engine.AliasMap) (cte : Engine.CteMap) (meta : Engine.SelectMeta),
      Engine.extract_select n S pam cte = some meta →
      ∀ c ∈ meta.columns, c.lineage.Nodup) ∧
    (∀ (ps : List Sexpr) (am : Engine.AliasMap) (cte : Engine.CteMap)
        (cs : List Engine.ColMeta),
      Engine.extract_cols n ps am cte = some cs → ∀ c ∈ cs, c.lineage.Nodup) ∧
    (∀ (p : Sexpr) (am : Engine.AliasMap) (cte : Engine.CteMap) (c : Engine.ColMeta),
      Engine.extract_column_metadata n p am cte = some c → c.lineage.Nodup) ∧
    (∀ (e : Sexpr) (am : Engine.AliasMap) (cte : Engine.CteMap) (r : List String),
      Engine.resolve_expression n e am cte = some r → r.Nodup) ∧
    (∀ (tq name : String) (am : Engine.AliasMap) (cte : Engine.CteMap) (r : List String),
      Engine.resolve_column n tq name am cte = some r → r.Nodup) ∧
    (∀ (b : Select) (tq name : String) (cte : Engine.CteMap) (r : List String),
      Engine.resolve_via_body n b tq name cte = some r → r.Nodup) := by
  intro n
  induction n with
  | zero =>
      refine ⟨?_, ?_, ?_, ?_, ?_, ?_⟩
      · intro S pam cte meta h; exact Option.noConfusion h
      · intro ps am cte cs h; exact Option.noConfusion h
      · intro p am cte c h; exact Option.noConfusion h
      · intro e am cte r h; exact Option.noConfusion h
      · intro tq name am cte r h; exact Option.noConfusion h
      · intro b tq name cte r h; exact Option.noConfusion h
  | succ n ih =>
      obtain ⟨ihES, ihEC, ihECM, ihRE, ihRC, ihRVB⟩ := ih
      refine ⟨?_, ?_, ?_, ?_, ?_, ?_⟩
      · -- extract_select
        intro S pam cte meta h
        rw [show Engine.extract_select (n+1) S pam cte
            = (match Engine.extract_cols n S.projs (Engine.build_alias_map S pam cte) cte with
               | none => none
               | some cols =>
                   some ⟨cols, Engine.extract_tables S, Engine.extract_filters S⟩)
            from rfl] at h
        cases hec : Engine.extract_cols n S.projs (Engine.build_alias_map S pam cte) cte with
        | none => rw [hec] at h; exact Option.noConfusion h
        | some cols =>
            rw [hec] at h
            injection h with h'
            rw [← h']
            exact ihEC _ _ _ _ hec
      · -- extract_cols
        intro ps am cte cs h
        cases ps with
        | nil =>
            rw [show Engine.extract_cols (n+1) ([] : List Sexpr) am cte = some [] from rfl] at h
            injection h with h'
            rw [← h']
            intro c hc
            exact absurd hc (List.not_mem_nil _)
        | cons p ps' =>
            rw [show Engine.extract_cols (n+1) (p :: ps') am cte
                = (match Engine.extract_column_metadata n p am cte with
                   | none => none
                   | some c =>
                       match Engine.extract_cols n ps' am cte with
                       | none => none
                       | some cs' => some (c :: cs')) from rfl] at h
            cases hecm : Engine.extract_column_metadata n p am cte with
            | none => rw [hecm] at h; exact Option.noConfusion h
            | some c0 =>
                rw [hecm] at h
                cases hec : Engine.extract_cols n ps' am cte with
                | none => rw [hec] at h; exact Option.noConfusion h
                | some cs' =>
                    rw [hec] at h
                    injection h with h'
                    rw [← h']
                    intro c hc
                    rcases List.mem_cons.mp hc with rfl | hmem
                    · exact ihECM _ _ _ _ hecm
                    · exact ihEC _ _ _ _ hec c hmem
      · -- extract_column_metadata
        intro p am cte c h
        have hlin : ∃ e', Engine.resolve_expression n e' am cte = some c.lineage := by
          cases p with
          | aliasE e a =>
              rw [show Engine.extract_column_metadata (n+1) (.aliasE e a) am cte
                  = (match Engine.resolve_expression n e am cte with
                     | none => none
                     | some lin => some (Engine.ColMeta.mk a e.sql lin)) from rfl] at h
              cases hre : Engine.resolve_expression n e am cte with
              | none => rw [hre] at h; exact Option.noConfusion h
              | some lin =>
                  rw [hre] at h
                  injection h with h'
                  rw [← h']
                  exact ⟨e, hre⟩
          | col t cn =>
              rw [show Engine.extract_column_metadata (n+1) (.col t cn) am cte
                  = (match Engine.resolve_expression n (.col t cn) am cte with
                     | none => none
                     | some lin =>
                         some (Engine.ColMeta.mk (Sexpr.col t cn).sql (Sexpr.col t cn).sql lin))
                  from rfl] at h
              cases hre : Engine.resolve_expression n (.col t cn) am cte with
              | none => rw [hre] at h; exact Option.noConfusion h
              | some lin =>
                  rw [hre] at h
                  injection h with h'
                  rw [← h']
                  exact ⟨.col t cn, hre⟩
          | func f args =>
              rw [show Engine.extract_column_metadata (n+1) (.func f args) am cte
                  = (match Engine.resolve_expression n (.func f args) am cte with
                     | none => none
                     | some lin =>
                         some (Engine.ColMeta.mk (Sexpr.func f args).sql (Sexpr.func f args).sql lin))
                  from rfl] at h
              cases hre : Engine.resolve_expression n (.func f args) am cte with
              | none => rw [hre] at h; exact Option.noConfusion h
              | some lin =>
                  rw [hre] at h
                  injection h with h'
                  rw [← h']
                  exact ⟨.func f args, hre⟩
          | lit v =>
              rw [show Engine.extract_column_metadata (n+1) (.lit v) am cte
                  = (match Engine.resolve_expression n (.lit v) am cte with
                     | none => none
                     | some lin =>
                         some (Engine.ColMeta.mk (Sexpr.lit v).sql (Sexpr.lit v).sql lin))
                  from rfl] at h
              cases hre : Engine.resolve_expression n (.lit v) am cte with
              | none => rw [hre] at h; exact Option.noConfusion h
              | some lin =>
                  rw [hre] at h
                  injection h with h'
                  rw [← h']
                  exact ⟨.lit v, hre⟩
          | identE s =>
              rw [show Engine.extract_column_metadata (n+1) (.identE s) am cte
                  = (match Engine.resolve_expression n (.identE s) am cte with
                     | none => none
                     | some lin =>
                         some (Engine.ColMeta.mk (Sexpr.identE s).sql (Sexpr.identE s).sql lin))
                  from rfl] at h
              cases hre : Engine.resolve_expression n (.identE s) am cte with
              | none => rw [hre] at h; exact Option.noConfusion h
              | some lin =>
                  rw [hre] at h
                  injection h with h'
                  rw [← h']
                  exact ⟨.identE s, hre⟩
        obtain ⟨e', hre⟩ := hlin
        exact ihRE _ _ _ _ hre
      · -- resolve_expression
        intro e am cte r h
        cases e with
        | col t cn =>
            rw [show Engine.resolve_expression (n+1) (.col t cn) am cte
                = Engine.resolve_column n t cn am cte from rfl] at h
            exact ihRC _ _ _ _ _ h
        | aliasE e' a =>
            rw [show Engine.resolve_expression (n+1) (.aliasE e' a) am cte
                = (match Engine.resolve_expr_list n (Sexpr.children (.aliasE e' a)) am cte with
                   | none => none
                   | some ls => some (dedupFirst ls.flatten)) from rfl] at h
            cases hrel : Engine.resolve_expr_list n (Sexpr.children (.aliasE e' a)) am cte with
            | none => rw [hrel] at h; exact Option.noConfusion h
            | some ls =>
                rw [hrel] at h
                injection h with h'
                rw [← h']
                exact dedupFirst_nodup _
        | func f args =>
            rw [show Engine.resolve_expression (n+1) (.func f args) am cte
                = (match Engine.resolve_expr_list n (Sexpr.children (.func f args)) am cte with
                   | none => none
                   | some ls => some (dedupFirst ls.flatten)) from rfl] at h
            cases hrel : Engine.resolve_expr_list n (Sexpr.children (.func f args)) am cte with
            | none => rw [hrel] at h; exact Option.noConfusion h
            | some ls =>
                rw [hrel] at h
                injection h with h'
                rw [← h']
                exact dedupFirst_nodup _
        | lit v =>
            rw [show Engine.resolve_expression (n+1) (.lit v) am cte
                = (match Engine.resolve_expr_list n (Sexpr.children (.lit v)) am cte with
                   | none => none
                   | some ls => some (dedupFirst ls.flatten)) from rfl] at h
            cases hrel : Engine.resolve_expr_list n (Sexpr.children (.lit v)) am cte with
            | none => rw [hrel] at h; exact Option.noConfusion h
            | some ls =>
                rw [hrel] at h
                injection h with h'
                rw [← h']
                exact dedupFirst_nodup _
        | identE s =>
            rw [show Engine.resolve_expression (n+1) (.identE s) am cte
                = (match Engine.resolve_expr_list n (Sexpr.children (.identE s)) am cte with
                   | none => none
                   | some ls => some (dedupFirst ls.flatten)) from rfl] at h
            cases hrel : Engine.resolve_expr_list n (Sexpr.children (.identE s)) am cte with
            | none => rw [hrel] at h; exact Option.noConfusion h
            | some ls =>
                rw [hrel] at h
                injection h with h'
                rw [← h']
                exact dedupFirst_nodup _
      · -- resolve_column
        intro tq name am cte r h
        by_cases htq : tq = ""
        · subst htq
          rw [resolve_unqual_eq] at h
          exact ru_nodup _ _ _ _ _ h
        · have hstep : Engine.resolve_column (n+1) tq name am cte
              = (match dictGet am tq with
                 | some (Engine.Target.sub q) =>
                     Engine.resolve_via_body n q.body tq name cte
                 | other =>
                     match dictGet cte tq with
                     | some b => Engine.resolve_via_body n b tq name cte
                     | none =>
                         match other with
                         | some (Engine.Target.tbl t) => some [t ++ "." ++ name]
                         | _ => Engine.resolve_unqualified n name am cte) := by
            rw [show Engine.resolve_column (n+1) tq name am cte
                = (if tq = "" then Engine.resolve_unqualified n name am cte
                   else
                     match dictGet am tq with
                     | some (Engine.Target.sub q) =>
                         Engine.resolve_via_body n q.body tq name cte
                     | other =>
                         match dictGet cte tq with
                         | some b => Engine.resolve_via_body n b tq name cte
                         | none =>
                             match other with
                             | some (Engine.Target.tbl t) => some [t ++ "." ++ name]
                             | _ => Engine.resolve_unqualified n name am cte) from rfl]
            rw [if_neg htq]
          rw [hstep] at h
          cases hget : dictGet am tq with
          | some v =>
              cases v with
              | sub q =>
                  rw [hget] at h
                  exact ihRVB _ _ _ _ _ h
              | tbl t =>
                  rw [hget] at h
                  cases hcte : dictGet cte tq with
                  | some b =>
                      rw [hcte] at h
                      exact ihRVB _ _ _ _ _ h
                  | none =>
                      rw [hcte] at h
                      injection h with h'
                      rw [← h']
                      exact List.nodup_singleton _
          | none =>
              rw [hget] at h
              cases hcte : dictGet cte tq with
              | some b =>
                  rw [hcte] at h
                  exact ihRVB _ _ _ _ _ h
              | none =>
                  rw [hcte] at h
                  exact ru_nodup _ _ _ _ _ h
      · -- resolve_via_body
        intro b tq name cte r h
        rw [show Engine.resolve_via_body (n+1) b tq name cte
            = (match Engine.extract_select n b [] cte with
               | none => none
               | some meta =>
                   match Engine.firstMatch meta.columns name with
                   | some lin => some lin
                   | none => some [tq ++ "." ++ name]) from rfl] at h
        cases hes : Engine.extract_select n b [] cte with
        | none => rw [hes] at h; exact Option.noConfusion h
        | some meta =>
            rw [hes] at h
            replace h : (match Engine.firstMatch meta.columns name with
                         | some lin => some lin
                         | none => some [tq ++ "." ++ name]) = some r := h
            cases hfm : Engine.firstMatch meta.columns name with
            | some lin =>
                rw [hfm] at h
                injection h with h'
                rw [← h']
                obtain ⟨c, hmem, hlin⟩ := firstMatch_mem _ _ _ hfm
                rw [← hlin]
                exact ihES _ _ _ _ hes c hmem
            | none =>
                rw [hfm] at h
                injection h with h'
                rw [← h']
                exact List.nodup_singleton _

/-- C8: every lineage list returned by `resolve_expression` /
`resolve_column` is duplicate-free; a non-column node's result is exactly
`dedupFirst` of the left-to-right concatenation of its children's
results, and `dedupFirst` returns an order-preserving subsequence of that
raw stream containing exactly its elements — i.e. first occurrence wins,
in insertion order. -/
theorem c8_dedup_insertion_order :
    (∀ (n : Nat) (e : Sexpr) (am : Engine.AliasMap) (cte : Engine.CteMap) (r : List String),
      Engine.resolve_expression n e am cte = some r → r.Nodup) ∧
    (∀ (n : Nat) (tq name : String) (am : Engine.AliasMap) (cte : Engine.CteMap)
        (r : List String),
      Engine.resolve_column n tq name am cte = some r → r.Nodup) ∧
    (∀ (n : Nat) (f : String) (args : List Sexpr) (am : Engine.AliasMap)
        (cte : Engine.CteMap) (ls : List (List String)),
      Engine.resolve_expr_list n args am cte = some ls →
      Engine.resolve_expression (n+1) (.func f args) am cte = some (dedupFirst ls.flatten)) ∧
    (∀ l : List String, (dedupFirst l).Sublist l) ∧
    (∀ (l : List String) (x : String), x ∈ dedupFirst l ↔ x ∈ l) := by
  refine ⟨?_, ?_, ?_, dedupFirst_sublist, dedupFirst_mem⟩
  · intro n e am cte r h
    exact (engine_nodup n).2.2.2.1 e am cte r h
  · intro n tq name am cte r h
    exact (engine_nodup n).2.2.2.2.1 tq name am cte r h
  · intro n f args am cte ls h
    rw [show Engine.resolve_expression (n+1) (.func f args) am cte
        = (match Engine.resolve_expr_list n args am cte with
           | none => none
           | some ls => some (dedupFirst ls.flatten)) from rfl]
    rw [h]

theorem c8_dedup_insertion_order_witness :
    (["t1.id", "t2.id"] : List String).Nodup ∧
    (["tc.cid"] : List String).Nodup ∧
    Engine.resolve_expression 6 (.func "F" [.col "" "id"])
      [("t1", Engine.Target.tbl "t1"), ("t2", Engine.Target.tbl "t2")] []
      = some (dedupFirst [["t1.id", "t2.id"]].flatten) :=
  ⟨c8_dedup_insertion_order.1 4 (.col "" "id")
     [("t1", Engine.Target.tbl "t1"), ("t2", Engine.Target.tbl "t2")] []
     ["t1.id", "t2.id"] (by rfl),
   c8_dedup_insertion_order.2.1 5 "c" "cid" [("c", Engine.Target.tbl "tc")] []
     ["tc.cid"] (by rfl),
   c8_dedup_insertion_order.2.2.1 5 "F" [.col "" "id"]
     [("t1", Engine.Target.tbl "t1"), ("t2", Engine.Target.tbl "t2")] []
     [["t1.id", "t2.id"]] (by rfl)⟩

/-! ## C10: qualified-reference precedence -/

/-- C10: for a qualified `T.C`, a subquery binding of `T` is used even
when `T` is also a registered CTE name (the registry is not consulted for
the branch choice), and a registered CTE name is used even when the alias
map binds `T` to a physical table.  The concrete instances show the
precedence is observable: with `T` bound to the subquery
`SELECT u.b AS x FROM u` while the registry maps `T` to
`SELECT t.a AS x FROM t`, resolution returns `["u.b"]` (the CTE path
would give `["t.a"]`); with `T` bound to physical table `phys` while in
the registry, resolution returns `["t.a"]`, not `["phys.x"]`. -/
theorem c10_precedence :
    (∀ (n : Nat) (tq name : String) (am : Engine.AliasMap) (cte : Engine.CteMap)
        (B : Select) (al : String),
      tq ≠ "" → dictGet am tq = some (Engine.Target.sub (.mk B al)) →
      Engine.resolve_column (n+1) tq name am cte
        = Engine.resolve_via_body n B tq name cte) ∧
    (∀ (n : Nat) (tq name t : String) (am : Engine.AliasMap) (cte : Engine.CteMap)
        (B : Select),
      tq ≠ "" → dictGet am tq = some (Engine.Target.tbl t) →
      dictGet cte tq = some B →
      Engine.resolve_column (n+1) tq name am cte
        = Engine.resolve_via_body n B tq name cte) ∧
    Engine.resolve_column 20 "c" "x"
      [("u", Engine.Target.tbl "u"), ("c", Engine.Target.sub (.mk c10Sub "c"))]
      [("c", c4Body)] = some ["u.b"] ∧
    Engine.resolve_via_body 19 c4Body "c" "x" [("c", c4Body)] = some ["t.a"] ∧
    Engine.resolve_column 20 "d" "x" [("d", Engine.Target.tbl "phys")] [("d", c4Body)]
      = some ["t.a"] ∧
    (["t.a"] : List String) ≠ ["phys.x"] := by
  refine ⟨?_, ?_, rfl, rfl, rfl, by decide⟩
  · intro n tq name am cte B al htq hget
    simp [Engine.resolve_column, htq, hget, Subq.body]
  · intro n tq name t am cte B htq hget hcte
    simp [Engine.resolve_column, htq, hget, hcte]

theorem c10_precedence_witness :
    (Engine.resolve_column 20 "c" "x"
        [("u", Engine.Target.tbl "u"), ("c", Engine.Target.sub (.mk c10Sub "c"))]
        [("c", c4Body)]
      = Engine.resolve_via_body 19 c10Sub "c" "x" [("c", c4Body)]) ∧
    (Engine.resolve_column 20 "d" "x" [("d", Engine.Target.tbl "phys")] [("d", c4Body)]
      = Engine.resolve_via_body 19 c4Body "d" "x" [("d", c4Body)]) :=
  ⟨c10_precedence.1 19 "c" "x"
     [("u", Engine.Target.tbl "u"), ("c", Engine.Target.sub (.mk c10Sub "c"))]
     [("c", c4Body)] c10Sub "c" (by decide) (by rfl),
   c10_precedence.2.1 19 "d" "x" "phys" [("d", Engine.Target.tbl "phys")]
     [("d", c4Body)] c4Body (by decide) (by rfl) (by rfl)⟩
